/-
Verification of the stitch-schemata alignment/compositing core.

Shallow embedding of the Python sources under `stitch_schemata/stitch/`:
`Image.py` (rotate, rotation_has_effect, _largest_rotated_rect,
_crop_around_center, merge_data), `OrientationDetector.py`
(detect_orientation), `Stitch.py` (the PHASE1 iteration, retry logic, canvas
height and crop computation) and the automatic tile extractor described by the
design document (the version of `TileExtractor.py` in the tree is a stale
revision that is incompatible with its caller, so the automatic mode is
modelled from the spec).

Conventions: machine integers are ℤ/ℕ; Python float arithmetic is modelled
over ℝ (ℚ where the code only compares scores); numpy slice indexing,
Python `%`, `//`, `int()` truncation and `& 3` are given explicit models.
-/
import Mathlib

namespace StitchSchemata

/-! ## Python / numpy primitive semantics -/

/-- Resolution of a single Python slice index against a sequence of length
`len`: negative indices count from the end, then the index is clamped into
`[0, len]`. -/
def pyIdx (len : ℕ) (i : ℤ) : ℕ :=
  if i < 0 then ((len : ℤ) + i).toNat else min i.toNat len

/-- Number of elements selected by a Python slice `[start:stop]` (step 1) on a
sequence of length `len`. -/
def pySliceLen (len : ℕ) (start stop : ℤ) : ℕ :=
  pyIdx len stop - pyIdx len start

/-! ## `Image.merge_data` (numpy array model)

Pixel rasters are modelled as a pair of dimensions together with a total pixel
function; out-of-range arguments are simply unconstrained. -/

structure Arr where
  height : ℕ
  width : ℕ
  pix : ℕ → ℕ → ℕ

/-- The eight slice bounds computed by `Image.merge_data` (verbatim from the
source). -/
structure MergeBounds where
  x1_min : ℤ
  x1_max : ℤ
  y1_min : ℤ
  y1_max : ℤ
  y2_min : ℤ
  y2_max : ℤ
  x2_min : ℤ
  x2_max : ℤ

def merge_bounds (destination source : Arr) (offset_x offset_y overlap_x : ℤ) :
    MergeBounds :=
  let width1 : ℤ := destination.width
  let height1 : ℤ := destination.height
  let width2 : ℤ := source.width
  let height2 : ℤ := source.height
  let x1_min := max 0 (offset_x + overlap_x)
  let x1_max := min width1 (width2 + offset_x)
  let y1_min := max 0 offset_y
  let y1_max := min height1 (height2 + offset_y)
  let y2_min := max 0 (-offset_y)
  let y2_max := y2_min + y1_max - y1_min
  let x2_min := max 0 overlap_x
  let x2_max := min width2 (width2 + offset_x)
  ⟨x1_min, x1_max, y1_min, y1_max, y2_min, y2_max, x2_min, x2_max⟩

/-- Number of destination rows selected by the slice assignment of
`merge_data`. -/
def mergeDestRows (destination source : Arr) (offset_x offset_y overlap_x : ℤ) : ℕ :=
  let b := merge_bounds destination source offset_x offset_y overlap_x
  pySliceLen destination.height b.y1_min b.y1_max

/-- Number of source rows selected by the slice assignment of `merge_data`. -/
def mergeSrcRows (destination source : Arr) (offset_x offset_y overlap_x : ℤ) : ℕ :=
  let b := merge_bounds destination source offset_x offset_y overlap_x
  pySliceLen source.height b.y2_min b.y2_max

/-- Number of destination columns selected by the slice assignment of
`merge_data`. -/
def mergeDestCols (destination source : Arr) (offset_x offset_y overlap_x : ℤ) : ℕ :=
  let b := merge_bounds destination source offset_x offset_y overlap_x
  pySliceLen destination.width b.x1_min b.x1_max

/-- Number of source columns selected by the slice assignment of
`merge_data`. -/
def mergeSrcCols (destination source : Arr) (offset_x offset_y overlap_x : ℤ) : ℕ :=
  let b := merge_bounds destination source offset_x offset_y overlap_x
  pySliceLen source.width b.x2_min b.x2_max

/-- Model of `Image.merge_data`: the numpy slice assignment
`destination[y1_min:y1_max, x1_min:x1_max] = source[y2_min:y2_max, x2_min:x2_max]`,
expressed pixel-wise with resolved slice indices (the shapes of the two
selections match under the preconditions established in the theorems below). -/
def merge_data (destination source : Arr) (offset_x offset_y overlap_x : ℤ) : Arr :=
  let b := merge_bounds destination source offset_x offset_y overlap_x
  let r1s := pyIdx destination.height b.y1_min
  let r1e := pyIdx destination.height b.y1_max
  let c1s := pyIdx destination.width b.x1_min
  let c1e := pyIdx destination.width b.x1_max
  let r2s := pyIdx source.height b.y2_min
  let c2s := pyIdx source.width b.x2_min
  { destination with
    pix := fun i j =>
      if r1s ≤ i ∧ i < r1e ∧ c1s ≤ j ∧ j < c1e then
        source.pix (r2s + (i - r1s)) (c2s + (j - c1s))
      else destination.pix i j }

/-! ## Real-valued Python math primitives -/

open Real in
/-- Model of `math.atan2(y, x)` over ℝ (IEEE convention, `atan2 0 0 = 0`). -/
noncomputable def atan2 (y x : ℝ) : ℝ :=
  if 0 < x then arctan (y / x)
  else if x < 0 ∧ 0 ≤ y then arctan (y / x) + π
  else if x < 0 ∧ y < 0 then arctan (y / x) - π
  else if 0 < y then π / 2
  else if y < 0 then -(π / 2)
  else 0

open Real in
/-- Model of `math.radians`. -/
noncomputable def radians (d : ℝ) : ℝ := d * (π / 180)

open Real in
/-- Model of `math.degrees`. -/
noncomputable def degreesOf (r : ℝ) : ℝ := r * (180 / π)

open Real in
/-- Python float `%` (sign of the divisor; for a positive divisor this is
`x - y * ⌊x / y⌋`). -/
noncomputable def pyFMod (x y : ℝ) : ℝ := x - y * ⌊x / y⌋

/-- Python `int()` applied to a float: truncation toward zero. -/
noncomputable def pyInt (x : ℝ) : ℤ := if 0 ≤ x then ⌊x⌋ else -⌊-x⌋

/-! ## `Image.py`: the raster model, `rotate` and its helpers

Pixel contents produced by the external OpenCV calls (`cv2.warpAffine`) are
represented symbolically; their dimensions follow the documented OpenCV
semantics (the output size of `warpAffine` is exactly the requested `dsize`).
numpy row/column slicing is the computable `pySliceLen` model above. -/

inductive ImgData where
  | raw (height width : ℕ) (tag : ℕ)
  | warped (src : ImgData) (centerX centerY : ℤ) (angle : ℝ) (dsizeW dsizeH : ℕ)
  | sliced (src : ImgData) (y1 y2 x1 x2 : ℤ)

def ImgData.height : ImgData → ℕ
  | .raw h _ _ => h
  | .warped _ _ _ _ _ dh => dh
  | .sliced src y1 y2 _ _ => pySliceLen src.height y1 y2

def ImgData.width : ImgData → ℕ
  | .raw _ w _ => w
  | .warped _ _ _ _ dw _ => dw
  | .sliced src _ _ x1 x2 => pySliceLen src.width x1 x2

structure Image where
  data : ImgData

def Image.height (img : Image) : ℕ := img.data.height

def Image.width (img : Image) : ℕ := img.data.width

/-- Model of `Image.size()`: returns `(width, height)`. -/
def Image.size (img : Image) : ℕ × ℕ := (img.data.width, img.data.height)

/-- Model of `Image.rotation_has_effect` (on an image of the given size):
`abs(angle) >= math.degrees(math.atan2(1.0, float(max(self.size()) // 2)))`.
Note the floor division `// 2`. -/
noncomputable def rotation_has_effect (w h : ℕ) (angle : ℝ) : Prop :=
  |angle| ≥ degreesOf (atan2 1 ((max w h / 2 : ℕ) : ℝ))

/-- The per-image rotation epsilon in degrees (the right-hand side of
`rotation_has_effect`). -/
noncomputable def rotationEps (w h : ℕ) : ℝ :=
  degreesOf (atan2 1 ((max w h / 2 : ℕ) : ℝ))

open Real in
/-- Model of `Image._largest_rotated_rect`, verbatim (including the
`math.atan2(bb_width, bb_width)` in both branches of the `gamma`
computation). `angle` is in radians. -/
noncomputable def largest_rotated_rect (width height : ℕ) (angle : ℝ) : ℝ × ℝ :=
  let quadrant : ℤ := (⌊angle / (π / 2)⌋ : ℤ) % 4
  let sign_alpha := if quadrant % 2 = 0 then angle else π - angle
  let alpha := pyFMod (pyFMod sign_alpha π + π) π
  let bb_width := width * cos alpha + height * sin alpha
  let bb_height := width * sin alpha + height * cos alpha
  let gamma := if width < height then atan2 bb_width bb_width else atan2 bb_width bb_width
  let delta := π - alpha - gamma
  let length : ℝ := if width < height then height else width
  let d := length * cos alpha
  let a := d * sin alpha / sin delta
  let y := a * cos gamma
  let x := y * tan gamma
  (bb_width - 2 * x, bb_height - 2 * y)

/-- Model of `Image._crop_around_center`: clamp the requested size to the image size,
then slice around the integer center. -/
noncomputable def crop_around_center (data : ImgData) (width height : ℝ) : ImgData :=
  let sizeW : ℕ := data.width
  let sizeH : ℕ := data.height
  let cx : ℤ := pyInt ((sizeW : ℝ) * 0.5)
  let cy : ℤ := pyInt ((sizeH : ℝ) * 0.5)
  let width := if width > (sizeW : ℝ) then (sizeW : ℝ) else width
  let height := if height > (sizeH : ℝ) then (sizeH : ℝ) else height
  let x1 := pyInt ((cx : ℝ) - width * 0.5)
  let x2 := pyInt ((cx : ℝ) + width * 0.5)
  let y1 := pyInt ((cy : ℝ) - height * 0.5)
  let y2 := pyInt ((cy : ℝ) + height * 0.5)
  ImgData.sliced data y1 y2 x1 x2

open Classical in
/-- Model of `Image.rotate`: identity when the rotation has no effect, otherwise warp
about the integer center at the same canvas size and crop to the
`largest_rotated_rect` of the angle (converted to radians). -/
noncomputable def Image.rotate (img : Image) (angle : ℝ) : Image :=
  if rotation_has_effect img.width img.height angle then
    let w := img.width
    let h := img.height
    let data := ImgData.warped img.data (w / 2 : ℕ) (h / 2 : ℕ) angle w h
    let rect := largest_rotated_rect w h (radians angle)
    ⟨crop_around_center data rect.1 rect.2⟩
  else img

/-! ## Configuration (`stitch/Config.py`, the fields the claims touch) -/

structure Config where
  margin : ℕ
  overlap_min : ℚ
  vertical_offset_max : ℕ
  rotation_max : ℝ
  tile_width : ℕ
  tile_height : ℕ
  tile_shapes_min : ℕ
  tile_match_min : ℚ
  tile_iterations_max : ℕ
  crop : Bool

/-! ## `ScanMetadata` and the canvas-height / crop computations of `Stitch.py`
(`_stitch_images` and `_crop_stitched_image`). -/

structure ScanMetadata where
  rotate : ℝ
  translate_x : ℤ
  translate_y : ℤ
  width : ℕ
  height : ℕ

/-- The first loop of `_stitch_images`: `offset_y0` is set to the running
cumulative `translate_y` each time the latter is negative (so it ends at the
LAST negative cumulative offset, `0` if none). -/
def offsetY0 (metas : List ScanMetadata) : ℤ :=
  (metas.foldl
    (fun s m =>
      let off := s.1 + m.translate_y
      (off, if off < 0 then off else s.2))
    ((0 : ℤ), (0 : ℤ))).2

/-- The second loop of `_stitch_images`: the canvas height, starting the
cumulative offset at `-offset_y0`. -/
def totalHeight (metas : List ScanMetadata) : ℤ :=
  (metas.foldl
    (fun s m =>
      let off := s.1 + m.translate_y
      (off, max s.2 (off + (m.height : ℤ))))
    (-offsetY0 metas, (0 : ℤ))).2

/-- Model of `_crop_stitched_image`: the upper crop bound `start`. -/
def cropStart (metas : List ScanMetadata) : ℤ :=
  (metas.foldl
    (fun s m =>
      let off := s.1 + m.translate_y
      (off, max s.2 off))
    ((0 : ℤ), (0 : ℤ))).2

/-- Model of `_crop_stitched_image`: the lower crop bound `stop`, starting from the
stitched image height `hInit`. -/
def cropStop (metas : List ScanMetadata) (hInit : ℤ) : ℤ :=
  (metas.foldl
    (fun s m =>
      let off := s.1 + m.translate_y
      (off, min s.2 ((m.height : ℤ) + off)))
    ((0 : ℤ), hInit)).2

/-- Height of the cropped stitched image: the numpy row slice
`data[start:stop]` applied to the canvas of height `totalHeight`. -/
def croppedHeight (metas : List ScanMetadata) : ℕ :=
  let hTotal := (totalHeight metas).toNat
  pySliceLen hTotal (cropStart metas) (cropStop metas hTotal)

/-- Height of the final stitched image as a function of the crop flag. -/
def stitchedHeight (crop : Bool) (metas : List ScanMetadata) : ℕ :=
  if crop then croppedHeight metas else (totalHeight metas).toNat

/-- The per-page vertical extents under the cumulative `translate_y` offsets:
for each page the pair (cumulative offset, cumulative offset + height). -/
def extentList (off : ℤ) : List ScanMetadata → List (ℤ × ℤ)
  | [] => []
  | m :: r =>
    let off2 := off + m.translate_y
    (off2, off2 + (m.height : ℤ)) :: extentList off2 r

def listMax : List ℤ → ℤ
  | [] => 0
  | x :: r => r.foldl max x

def listMin : List ℤ → ℤ
  | [] => 0
  | x :: r => r.foldl min x

/-- The spec formula: intersection of the pages' vertical extents
(min of bottoms minus max of tops). -/
def interHeight (metas : List ScanMetadata) : ℤ :=
  listMin ((extentList 0 metas).map Prod.snd) - listMax ((extentList 0 metas).map Prod.fst)

/-- The spec formula: union of the pages' vertical extents
(max of bottoms minus min of tops). -/
def unionHeight (metas : List ScanMetadata) : ℤ :=
  listMax ((extentList 0 metas).map Prod.snd) - listMin ((extentList 0 metas).map Prod.fst)

/-! ## PHASE1 of `Stitch.py` (`_pre_stitch_image_phase1` and its helper)

The image-processing primitives (tile extraction and template matching) are
input/output for this control logic; they enter as oracle functions of the
iteration number, the side and the hint, exactly the data the source threads
to `TileExtractor` and `TileFinder`. Angles follow the source over ℝ,
correlation scores over ℚ. -/

inductive Side where
  | LEFT
  | RIGHT
deriving DecidableEq

structure Pos where
  x : ℤ
  y : ℤ
deriving DecidableEq

abbrev TileHint := (ℤ × ℤ) × (ℤ × ℤ)

inductive StitchErrKind where
  | rotationExceeded
  | matchTopBelow
  | matchBottomBelow
  | tileSearchExhausted
  | noTileMatch
deriving DecidableEq

structure P1Meta where
  rotate : ℝ
  translate_x : ℤ
  translate_y : ℤ

open Classical in
/-- The `for iteration in range(tile_iterations_max)` loop of
`_pre_stitch_image_phase1_helper`. State: remaining fuel, iteration index,
`angle`, `angle_delta`, and the last `(tile_top, tile_top_match)` pair
(`none` before the first successful match, mirroring the `None`
initialisation). -/
noncomputable def phase1Loop (cfg : Config) (w h : ℕ) (sign : ℤ)
    (extract : ℕ → Except StitchErrKind (Pos × Pos))
    (find : ℕ → Pos × Pos → (Pos × ℚ) × (Pos × ℚ)) :
    ℕ → ℕ → ℝ → ℝ → Option (Pos × Pos) → Except StitchErrKind (ℝ × Option (Pos × Pos))
  | 0, _, angle, _, last => .ok (angle, last)
  | fuel + 1, iter, angle, angle_delta, last =>
    let angle := angle - angle_delta
    if angle > cfg.rotation_max then .error .rotationExceeded
    else
      match extract iter with
      | .error e => .error e
      | .ok (tile_top, tile_bottom) =>
        let res := find iter (tile_top, tile_bottom)
        let tile_top_match := res.1.1
        let tile_bottom_match := res.2.1
        if res.1.2 < cfg.tile_match_min then .error .matchTopBelow
        else if res.2.2 < cfg.tile_match_min then .error .matchBottomBelow
        else
          let delta := degreesOf ((sign : ℝ) *
            (atan2 ((tile_bottom_match.y - tile_top_match.y : ℤ) : ℝ)
                   ((tile_bottom_match.x - tile_top_match.x : ℤ) : ℝ) -
             atan2 ((tile_bottom.y - tile_top.y : ℤ) : ℝ)
                   ((tile_bottom.x - tile_top.x : ℤ) : ℝ)))
          if rotation_has_effect w h delta then
            phase1Loop cfg w h sign extract find fuel (iter + 1) angle delta
              (some (tile_top, tile_top_match))
          else .ok (angle, some (tile_top, tile_top_match))

/-- Model of `_pre_stitch_image_phase1_helper`: run the loop from
`angle = angle_delta = 0.0`, then build the `ScanMetadata` from the final
`tile_top` / `tile_top_match` pair, or raise when none was ever set. -/
noncomputable def phase1Helper (cfg : Config) (w h : ℕ) (sign : ℤ)
    (extract : ℕ → Except StitchErrKind (Pos × Pos))
    (find : ℕ → Pos × Pos → (Pos × ℚ) × (Pos × ℚ)) :
    Except StitchErrKind P1Meta :=
  match phase1Loop cfg w h sign extract find cfg.tile_iterations_max 0 0 0 none with
  | .error e => .error e
  | .ok (angle, some (tile_top, tile_top_match)) =>
    .ok ⟨angle, sign * (tile_top_match.x - tile_top.x), sign * (tile_top_match.y - tile_top.y)⟩
  | .ok (_, none) => .error .noTileMatch

/-- The page-processing oracles: extraction results per (side, hint,
iteration) and matching results per (side, iteration). -/
structure P1Env where
  extract : Side → Option TileHint → ℕ → Except StitchErrKind (Pos × Pos)
  find : Side → ℕ → Pos × Pos → (Pos × ℚ) × (Pos × ℚ)

/-- Model of `_pre_stitch_image_phase1`: forward attempt (extract from the current
page, side LEFT, sign 1, the configured hint); on `StitchError`, a single
reversed attempt (extract from the previous page, side RIGHT, sign -1, no
hint) whose error, if any, propagates. -/
noncomputable def phase1 (cfg : Config) (w h : ℕ) (hint : Option TileHint)
    (env : P1Env) : Except StitchErrKind (Side × P1Meta) :=
  match phase1Helper cfg w h 1 (env.extract Side.LEFT hint) (env.find Side.LEFT) with
  | .ok meta => .ok (Side.LEFT, meta)
  | .error _ =>
    match phase1Helper cfg w h (-1) (env.extract Side.RIGHT none) (env.find Side.RIGHT) with
    | .ok meta => .ok (Side.RIGHT, meta)
    | .error e => .error e

deriving instance DecidableEq for Except

structure PageEnv where
  w : ℕ
  h : ℕ
  hint : Option TileHint
  env : P1Env

/-- Model of `_pre_stitch_images` over the pages with index ≥ 1: any uncaught
`StitchError` aborts the whole run (`stitch()` runs this before any
compositing or saving, so an error means no final output for any page). -/
noncomputable def preStitchImages (cfg : Config) :
    List PageEnv → Except StitchErrKind (List (Side × P1Meta))
  | [] => .ok []
  | p :: r =>
    match phase1 cfg p.w p.h p.hint p.env with
    | .error e => .error e
    | .ok sm =>
      match preStitchImages cfg r with
      | .error e => .error e
      | .ok rest => .ok (sm :: rest)

/-! ## Orientation detector (`OrientationDetector.detect_orientation`)

The probabilistic Hough transform is an external OpenCV call; its output (a
possibly absent list of segments) is the input of the embedded logic. -/

structure Seg where
  x1 : ℤ
  y1 : ℤ
  x2 : ℤ
  y2 : ℤ

/-- Model of `math.degrees(math.atan2(y2 - y1, x2 - x1))`. -/
noncomputable def segAngle (s : Seg) : ℝ :=
  degreesOf (atan2 ((s.y2 - s.y1 : ℤ) : ℝ) ((s.x2 - s.x1 : ℤ) : ℝ))

/-- Model of `math.hypot(x2 - x1, y2 - y1)`. -/
noncomputable def segLength (s : Seg) : ℝ :=
  Real.sqrt (((s.x2 - s.x1 : ℤ) : ℝ) ^ 2 + ((s.y2 - s.y1 : ℤ) : ℝ) ^ 2)

open Classical in
/-- The angle samples accumulated by the segment loop of
`detect_orientation`, in loop order: a segment longer than
`0.1 * max(size)` contributes `angle`, `angle - 90` and/or `angle + 90` for
each of the three independent conditions that holds. -/
noncomputable def houghSamples (rotation_max : ℝ) (w h : ℕ) (ls : List Seg) : List ℝ :=
  let length_min := 0.1 * ((max w h : ℕ) : ℝ)
  ls.foldr
    (fun s acc =>
      if segLength s > length_min then
        (if |segAngle s| < rotation_max then [segAngle s] else []) ++
        (if |segAngle s - 90| < rotation_max then [segAngle s - 90] else []) ++
        (if |segAngle s + 90| < rotation_max then [segAngle s + 90] else []) ++ acc
      else acc)
    []

open Classical in
/-- Model of `detect_orientation`: `None` when no sample was collected (including the
case of no Hough lines at all), otherwise `np.average` of the samples. -/
noncomputable def detect_orientation (rotation_max : ℝ) (w h : ℕ)
    (hough_lines : Option (List Seg)) : Option ℝ :=
  let angles := match hough_lines with
    | none => []
    | some ls => houghSamples rotation_max w h ls
  if angles.length = 0 then none else some (angles.sum / angles.length)

/-- The reference axis in {0, 90, -90} nearest to the angle `a` (spec side:
"normalized to its nearest reference axis"). -/
noncomputable def nearestRefAxis (a : ℝ) : ℝ :=
  if |a| ≤ |a - 90| ∧ |a| ≤ |a + 90| then 0
  else if |a - 90| ≤ |a + 90| then 90
  else -90

/-- Spec side: a qualifying segment is longer than 10% of the larger
dimension and its angle lies within `rotation_max` of 0°, 90° or -90°. -/
noncomputable def specQualifies (rotation_max : ℝ) (w h : ℕ) (s : Seg) : Prop :=
  segLength s > 0.1 * ((max w h : ℕ) : ℝ) ∧
    (|segAngle s| < rotation_max ∨ |segAngle s - 90| < rotation_max ∨
      |segAngle s + 90| < rotation_max)

open Classical in
/-- Spec side: one sample per qualifying segment, normalized to its nearest
reference axis. -/
noncomputable def specSamples (rotation_max : ℝ) (w h : ℕ) (ls : List Seg) : List ℝ :=
  ls.foldr
    (fun s acc =>
      if specQualifies rotation_max w h s then
        (segAngle s - nearestRefAxis (segAngle s)) :: acc
      else acc)
    []

open Classical in
/-- Spec side: the mean of the per-qualifying-segment samples, "undetected"
(`none`) exactly when no segment qualifies. -/
noncomputable def spec_detect_orientation (rotation_max : ℝ) (w h : ℕ)
    (hough_lines : Option (List Seg)) : Option ℝ :=
  let samples := match hough_lines with
    | none => []
    | some ls => specSamples rotation_max w h ls
  if samples.length = 0 then none else some (samples.sum / samples.length)

/-! ## Automatic tile extraction

The `TileExtractor.py` present in the tree is a stale revision: its
constructor takes `(io, config, grayscale_page, tile_hint)` and
`extract_tiles` returns two values, while `Stitch.py` calls it with
`(io, config, path, side, image, tile_hints)` and unpacks three values, and
it builds `Tile(x, y, contrast, width, height, image)` although the `Tile`
dataclass has fields `(x, y, match, shapes, image, area)`. The automatic
extractor the orchestrator actually uses is therefore missing from the tree
and is modelled from the spec below. -/

/-- Modelled from the spec: the automatic-mode candidate grid of the missing
`TileExtractor` — origins sampled with step half a tile width/height over the
search rectangle spanning horizontally from the margin to
`overlap-fraction · width` and vertically the full height minus the margins
(the rational bound `x < overlap_min · width` is written cross-multiplied by
the positive denominator of `overlap_min`). -/
def autoCandidates (cfg : Config) (width height : ℕ) : List Pos :=
  let stepX : ℤ := (cfg.tile_width / 2 : ℕ)
  let stepY : ℤ := (cfg.tile_height / 2 : ℕ)
  let xs := ((List.range width).map fun k => (cfg.margin : ℤ) + (k : ℤ) * stepX).filter
    fun (x : ℤ) => (x * (cfg.overlap_min.den : ℤ) < cfg.overlap_min.num * (width : ℤ))
  let ys := ((List.range height).map fun k => (cfg.margin : ℤ) + (k : ℤ) * stepY).filter
    fun (y : ℤ) => (y ≤ (height : ℤ) - (cfg.margin : ℤ))
  xs.flatMap fun x => ys.map fun y => Pos.mk x y

/-- Squared tile diagonal `tileWidth² + tileHeight²`. -/
def diagSq (cfg : Config) : ℤ :=
  (cfg.tile_width : ℤ) ^ 2 + (cfg.tile_height : ℤ) ^ 2

/-- Squared Euclidean distance between two tile origins. -/
def distSq (a b : Pos) : ℤ :=
  (a.x - b.x) ^ 2 + (a.y - b.y) ^ 2

/-- Modelled from the spec: the pair-selection objective of the missing
automatic extractor — normalized combined texture score plus normalized
distance (scores are contour counts, so integers; the two normalized terms
`(sA + sB) / (2·scoreMax) + distSq / distNorm` are brought to the common
positive denominator `2·scoreMax·distNorm`, which leaves the arg-max
unchanged, so the objective is the integer numerator). -/
def pairObjective (cfg : Config) (width height : ℕ) (score : Pos → ℤ)
    (scoreMax : ℤ) (ab : Pos × Pos) : ℤ :=
  (score ab.1 + score ab.2) * ((width : ℤ) ^ 2 + (height : ℤ) ^ 2 + 1) +
    2 * scoreMax * distSq ab.1 ab.2

/-- Modelled from the spec: the automatic mode of the missing
`TileExtractor` — keep the grid candidates whose texture score (contour
count) clears the configured minimum, form all pairs whose origin distance
exceeds the tile diagonal (hard constraint, compared on squares), choose the
pair maximizing the objective, fail with `TileSearchExhausted` when no such
pair exists, and order the result with the vertically-earlier tile first. -/
def extract_tiles_auto (cfg : Config) (width height : ℕ) (score : Pos → ℤ) :
    Except StitchErrKind (Pos × Pos) :=
  let qualified := (autoCandidates cfg width height).filter
    fun p => (cfg.tile_shapes_min : ℤ) ≤ score p
  let scoreMax := qualified.foldl (fun acc p => max acc (score p)) 1
  let pairs := (qualified.flatMap fun a => qualified.map fun b => (a, b)).filter
    fun ab => diagSq cfg < distSq ab.1 ab.2
  match pairs.argmax (pairObjective cfg width height score scoreMax) with
  | none => .error .tileSearchExhausted
  | some (a, b) => .ok (if a.y ≤ b.y then (a, b) else (b, a))

/-! ## Closed form and spec-side geometry for the rotate crop -/

open Real in
/-- Closed form of the crop rectangle computed by `_largest_rotated_rect` for
angles in the open first/fourth quadrant: with `α = |angle|` and `L` the
longer side, both bounding-box dimensions are reduced by
`2 · L·sin α·cos α / (sin α + cos α)` (the `γ = atan2(bb_w, bb_w) = π/4`
two-similar-triangles construction). -/
noncomputable def cropRectFormula (w h : ℕ) (t : ℝ) : ℝ × ℝ :=
  let α := |t|
  let L : ℝ := max (w : ℝ) (h : ℝ)
  let k := L * sin α * cos α / (sin α + cos α)
  ((w : ℝ) * cos α + (h : ℝ) * sin α - 2 * k,
   (w : ℝ) * sin α + (h : ℝ) * cos α - 2 * k)

open Real in
/-- Spec side: an axis-aligned `W × H` rectangle centered at the center of a
`w × h` rectangle rotated by `t` about that same center is inscribed in the
rotated rectangle (its four corners, mapped back into the frame of the
unrotated rectangle, stay inside it). -/
def inscribedRect (w h : ℕ) (t W H : ℝ) : Prop :=
  0 ≤ W ∧ 0 ≤ H ∧
  |cos t * (W / 2) + sin t * (H / 2)| ≤ (w : ℝ) / 2 ∧
  |cos t * (W / 2) - sin t * (H / 2)| ≤ (w : ℝ) / 2 ∧
  |cos t * (H / 2) - sin t * (W / 2)| ≤ (h : ℝ) / 2 ∧
  |sin t * (W / 2) + cos t * (H / 2)| ≤ (h : ℝ) / 2

/-! ## Concrete instances used by the PHASE1 counterexample -/

/-- Configuration with `rotation_max = 1°` used in the PHASE1 rotation-guard
counterexample. -/
def cfg4 : Config :=
  { margin := 50, overlap_min := 1 / 10, vertical_offset_max := 200,
    rotation_max := 1, tile_width := 300, tile_height := 400,
    tile_shapes_min := 1, tile_match_min := 1 / 2, tile_iterations_max := 5,
    crop := true }

/-- Extraction oracle: always the horizontal tile baseline
`(0,0) – (100,0)`. -/
def c4extract : ℕ → Except StitchErrKind (Pos × Pos) :=
  fun _ => .ok (⟨0, 0⟩, ⟨100, 0⟩)

/-- Matching oracle: in iteration 0 the matched baseline is vertical (a 90°
discrepancy), afterwards horizontal with a 5-pixel shift (discrepancy 0, so
the loop stops); all scores are 1. -/
def c4find : ℕ → Pos × Pos → (Pos × ℚ) × (Pos × ℚ) :=
  fun iter _ =>
    if iter = 0 then ((⟨0, 0⟩, 1), (⟨0, 100⟩, 1))
    else ((⟨5, 0⟩, 1), (⟨105, 0⟩, 1))

/-! ## Concrete instances used by the PHASE1 retry witness -/

/-- Configuration used by the retry/threshold witness. -/
def cfg3 : Config :=
  { margin := 50, overlap_min := 1 / 10, vertical_offset_max := 200,
    rotation_max := 1, tile_width := 300, tile_height := 400,
    tile_shapes_min := 1, tile_match_min := 1 / 2, tile_iterations_max := 5,
    crop := true }

/-- Extraction oracle with a fixed result. -/
def ex3 : ℕ → Except StitchErrKind (Pos × Pos) :=
  fun _ => .ok (⟨0, 0⟩, ⟨100, 0⟩)

/-- Matching oracle whose correlation scores are all 0 (below any positive
threshold). -/
def find0 : ℕ → Pos × Pos → (Pos × ℚ) × (Pos × ℚ) :=
  fun _ _ => ((⟨0, 0⟩, 0), (⟨0, 0⟩, 0))

/-- Page environment whose extraction always fails (both sides). -/
def env3 : P1Env :=
  { extract := fun _ _ _ => .error .tileSearchExhausted
    find := fun _ _ _ => ((⟨0, 0⟩, 0), (⟨0, 0⟩, 0)) }

/-- Configuration used only by the C5 witness. -/
def cfg5 : Config :=
  { margin := 0, overlap_min := 1, vertical_offset_max := 0, rotation_max := 1,
    tile_width := 2, tile_height := 2, tile_shapes_min := 1, tile_match_min := 1,
    tile_iterations_max := 1, crop := true }

/-! ## Helper lemmas -/

theorem pyIdx_of_nonneg_le {len : ℕ} {i : ℤ} (h0 : 0 ≤ i) (h1 : i ≤ len) :
    pyIdx len i = i.toNat := by
  unfold pyIdx
  rw [if_neg (by omega)]
  omega

theorem pySliceLen_of_range {len : ℕ} {start stop : ℤ} (h0 : 0 ≤ start)
    (h1 : start ≤ stop) (h2 : stop ≤ len) :
    pySliceLen len start stop = (stop - start).toNat := by
  unfold pySliceLen
  rw [pyIdx_of_nonneg_le h0 (by omega), pyIdx_of_nonneg_le (by omega) h2]
  omega

open Real in
theorem atan2_of_pos {y x : ℝ} (hx : 0 < x) : atan2 y x = arctan (y / x) := by
  unfold atan2
  rw [if_pos hx]

open Real in
theorem atan2_zero_pos {y : ℝ} (hy : 0 < y) : atan2 y 0 = π / 2 := by
  unfold atan2
  rw [if_neg (by norm_num), if_neg (by norm_num), if_neg (by norm_num), if_pos hy]


theorem pyIdx_cast (len : ℕ) (i : ℤ) :
    (pyIdx len i : ℤ) = if i < 0 then max 0 ((len : ℤ) + i) else min i (len : ℤ) := by
  unfold pyIdx
  split <;> omega

open Real in
theorem degreesOf_le_degreesOf {x y : ℝ} (h : x ≤ y) : degreesOf x ≤ degreesOf y := by
  unfold degreesOf
  have : (0 : ℝ) < 180 / π := by positivity
  nlinarith

open Real in
theorem degreesOf_pos {x : ℝ} (h : 0 < x) : 0 < degreesOf x := by
  unfold degreesOf
  positivity

open Real in
theorem degreesOf_pi_div_two : degreesOf (π / 2) = 90 := by
  unfold degreesOf
  field_simp
  ring

open Real in
theorem degreesOf_le_90 {x : ℝ} (h : x ≤ π / 2) : degreesOf x ≤ 90 := by
  have := degreesOf_le_degreesOf h
  rwa [degreesOf_pi_div_two] at this

open Real in
theorem arctan_le_self {x : ℝ} (h : 0 ≤ x) : arctan x ≤ x := by
  rcases eq_or_lt_of_le h with h0 | h0
  · rw [← h0, arctan_zero]
  · rcases lt_or_le x (π / 2) with h1 | h1
    · have htan := lt_tan h0 h1
      have h2 := arctan_strictMono htan
      rw [arctan_tan (by linarith) h1] at h2
      exact le_of_lt h2
    · exact le_trans (le_of_lt (arctan_lt_pi_div_two x)) h1

open Real in
theorem rotationEps_pos (w h : ℕ) : 0 < rotationEps w h := by
  unfold rotationEps
  rcases Nat.eq_zero_or_pos (max w h / 2) with h0 | h0
  · rw [h0]
    push_cast
    rw [atan2_zero_pos (by norm_num)]
    exact degreesOf_pos (by positivity)
  · rw [atan2_of_pos (by exact_mod_cast h0)]
    apply degreesOf_pos
    rw [show (0 : ℝ) = arctan 0 from arctan_zero.symm]
    apply arctan_strictMono
    positivity

open Real in
theorem rotationEps_le_90 (w h : ℕ) : rotationEps w h ≤ 90 := by
  unfold rotationEps
  rcases Nat.eq_zero_or_pos (max w h / 2) with h0 | h0
  · rw [h0]
    push_cast
    rw [atan2_zero_pos (by norm_num), degreesOf_pi_div_two]
  · rw [atan2_of_pos (by exact_mod_cast h0)]
    exact degreesOf_le_90 (le_of_lt (arctan_lt_pi_div_two _))

theorem rotation_has_effect_iff_eps (w h : ℕ) (a : ℝ) :
    rotation_has_effect w h a ↔ rotationEps w h ≤ |a| := Iff.rfl

/-! ## Claims about `merge_data` -/

/-- C8. With the source footprint inside the destination and
`0 ≤ overlap_x ≤ source width`, `merge_data` copies every source pixel
`(x, y)` with `x ≥ overlap_x` to destination position
`(x + offset_x, y + offset_y)` and leaves every destination pixel outside the
painted rectangle
`[offset_x + overlap_x, offset_x + w2) × [offset_y, offset_y + h2)` — in
particular the pixels under the first `overlap_x` source columns —
unchanged. -/
theorem merge_data_paint_and_frame (d s : Arr) (ox oy ov : ℕ)
    (hw : ox + s.width ≤ d.width) (hh : oy + s.height ≤ d.height)
    (hov : ov ≤ s.width) :
    (∀ x y : ℕ, ov ≤ x → x < s.width → y < s.height →
      (merge_data d s ox oy ov).pix (oy + y) (ox + x) = s.pix y x) ∧
    (∀ i j : ℕ, ¬(oy ≤ i ∧ i < oy + s.height ∧ ox + ov ≤ j ∧ j < ox + s.width) →
      (merge_data d s ox oy ov).pix i j = d.pix i j) ∧
    (merge_data d s ox oy ov).height = d.height ∧
    (merge_data d s ox oy ov).width = d.width := by
  have hr1s : pyIdx d.height (max 0 (oy : ℤ)) = oy := by
    rw [max_eq_right (by positivity), pyIdx_of_nonneg_le (by positivity) (by omega)]
    omega
  have hr1e : pyIdx d.height (min (d.height : ℤ) ((s.height : ℤ) + oy)) = s.height + oy := by
    rw [min_eq_right (by push_cast; omega),
      pyIdx_of_nonneg_le (by positivity) (by push_cast; omega)]
    omega
  have hc1s : pyIdx d.width (max 0 ((ox : ℤ) + ov)) = ox + ov := by
    rw [max_eq_right (by positivity), pyIdx_of_nonneg_le (by positivity) (by push_cast; omega)]
    omega
  have hc1e : pyIdx d.width (min (d.width : ℤ) ((s.width : ℤ) + ox)) = s.width + ox := by
    rw [min_eq_right (by push_cast; omega),
      pyIdx_of_nonneg_le (by positivity) (by push_cast; omega)]
    omega
  have hr2s : pyIdx s.height (max 0 (-(oy : ℤ))) = 0 := by
    rw [max_eq_left (by omega), pyIdx_of_nonneg_le le_rfl (by positivity)]
    rfl
  have hc2s : pyIdx s.width (max 0 (ov : ℤ)) = ov := by
    rw [max_eq_right (by positivity), pyIdx_of_nonneg_le (by positivity) (by omega)]
    omega
  refine ⟨fun x y hx1 hx2 hy => ?_, fun i j hij => ?_, rfl, rfl⟩
  · show (if pyIdx d.height (max 0 (oy : ℤ)) ≤ oy + y ∧
        oy + y < pyIdx d.height (min (d.height : ℤ) ((s.height : ℤ) + oy)) ∧
        pyIdx d.width (max 0 ((ox : ℤ) + ov)) ≤ ox + x ∧
        ox + x < pyIdx d.width (min (d.width : ℤ) ((s.width : ℤ) + ox)) then
        s.pix (pyIdx s.height (max 0 (-(oy : ℤ))) + (oy + y - pyIdx d.height (max 0 (oy : ℤ))))
          (pyIdx s.width (max 0 (ov : ℤ)) + (ox + x - pyIdx d.width (max 0 ((ox : ℤ) + ov))))
      else d.pix (oy + y) (ox + x)) = s.pix y x
    rw [hr1s, hr1e, hc1s, hc1e, hr2s, hc2s, if_pos (by omega)]
    congr 1 <;> omega
  · show (if pyIdx d.height (max 0 (oy : ℤ)) ≤ i ∧
        i < pyIdx d.height (min (d.height : ℤ) ((s.height : ℤ) + oy)) ∧
        pyIdx d.width (max 0 ((ox : ℤ) + ov)) ≤ j ∧
        j < pyIdx d.width (min (d.width : ℤ) ((s.width : ℤ) + ox)) then
        s.pix (pyIdx s.height (max 0 (-(oy : ℤ))) + (i - pyIdx d.height (max 0 (oy : ℤ))))
          (pyIdx s.width (max 0 (ov : ℤ)) + (j - pyIdx d.width (max 0 ((ox : ℤ) + ov))))
      else d.pix i j) = d.pix i j
    rw [hr1s, hr1e, hc1s, hc1e, if_neg (by omega)]

/-- C8 witness. -/
theorem merge_data_paint_and_frame_witness :
    (2 : ℕ) + 3 ≤ 9 ∧ (1 : ℕ) + 2 ≤ 8 ∧ (1 : ℕ) ≤ 3 ∧
    ((∀ x y : ℕ, 1 ≤ x → x < (Arr.mk 2 3 fun i j => 10 * i + j).width →
        y < (Arr.mk 2 3 fun i j => 10 * i + j).height →
        (merge_data (Arr.mk 8 9 fun _ _ => 7) (Arr.mk 2 3 fun i j => 10 * i + j)
          2 1 1).pix (1 + y) (2 + x) = (Arr.mk 2 3 fun i j => 10 * i + j).pix y x) ∧
      (∀ i j : ℕ,
        ¬(1 ≤ i ∧ i < 1 + (Arr.mk 2 3 fun i j => 10 * i + j).height ∧
          2 + 1 ≤ j ∧ j < 2 + (Arr.mk 2 3 fun i j => 10 * i + j).width) →
        (merge_data (Arr.mk 8 9 fun _ _ => 7) (Arr.mk 2 3 fun i j => 10 * i + j)
          2 1 1).pix i j = (Arr.mk 8 9 fun _ _ => 7).pix i j) ∧
      (merge_data (Arr.mk 8 9 fun _ _ => 7) (Arr.mk 2 3 fun i j => 10 * i + j)
        2 1 1).height = (Arr.mk 8 9 fun _ _ => 7).height ∧
      (merge_data (Arr.mk 8 9 fun _ _ => 7) (Arr.mk 2 3 fun i j => 10 * i + j)
        2 1 1).width = (Arr.mk 8 9 fun _ _ => 7).width) :=
  ⟨by decide, by decide, by decide,
    merge_data_paint_and_frame (Arr.mk 8 9 fun _ _ => 7)
      (Arr.mk 2 3 fun i j => 10 * i + j) 2 1 1 (by decide) (by decide) (by decide)⟩

/-- C10 (amended). Under `0 ≤ offset_x`, `offset_x + w2 ≤ w1`,
`0 ≤ overlap_x` and `-h2 ≤ offset_y ≤ h1`, the destination and source slice
rectangles of `merge_data` have equal width and height (rows of the source
falling outside the destination are clipped, never written out of bounds);
outside the stated `offset_y` range the two row selections can differ in
size (a numpy broadcast error), see the counterexample. -/
theorem merge_data_slices_safe (d s : Arr) (ox oy ov : ℤ)
    (h1 : 0 ≤ ox) (h2 : ox + (s.width : ℤ) ≤ (d.width : ℤ)) (h3 : 0 ≤ ov)
    (h4 : -(s.height : ℤ) ≤ oy) (h5 : oy ≤ (d.height : ℤ)) :
    mergeDestRows d s ox oy ov = mergeSrcRows d s ox oy ov ∧
    mergeDestCols d s ox oy ov = mergeSrcCols d s ox oy ov ∧
    mergeDestRows d s ox oy ov ≤ d.height ∧
    mergeSrcRows d s ox oy ov ≤ s.height ∧
    mergeDestCols d s ox oy ov ≤ d.width ∧
    mergeSrcCols d s ox oy ov ≤ s.width := by
  have key : ∀ (len : ℕ) (i : ℤ), 0 ≤ i → (pyIdx len i : ℤ) = min i len := by
    intro len i h
    unfold pyIdx
    rw [if_neg (by omega)]
    omega
  have e1 := key d.height (max 0 oy) (by omega)
  have e2 := key d.height (min (d.height : ℤ) ((s.height : ℤ) + oy)) (by omega)
  have e3 := key s.height (max 0 (-oy)) (by omega)
  have e4 := key s.height
    (max 0 (-oy) + min (d.height : ℤ) ((s.height : ℤ) + oy) - max 0 oy) (by omega)
  have e5 := key d.width (max 0 (ox + ov)) (by omega)
  have e6 := key d.width (min (d.width : ℤ) ((s.width : ℤ) + ox)) (by omega)
  have e7 := key s.width (max 0 ov) (by omega)
  have e8 := key s.width (min (s.width : ℤ) ((s.width : ℤ) + ox)) (by omega)
  simp only [mergeDestRows, mergeSrcRows, mergeDestCols, mergeSrcCols, merge_bounds,
    pySliceLen]
  omega

/-- C10 witness. -/
theorem merge_data_slices_safe_witness :
    (0 : ℤ) ≤ 2 ∧ (2 : ℤ) + 3 ≤ 9 ∧ (0 : ℤ) ≤ 1 ∧ (-(2 : ℤ)) ≤ -1 ∧ (-1 : ℤ) ≤ 8 ∧
    (mergeDestRows (Arr.mk 8 9 fun _ _ => 0) (Arr.mk 2 3 fun _ _ => 0) 2 (-1) 1 =
        mergeSrcRows (Arr.mk 8 9 fun _ _ => 0) (Arr.mk 2 3 fun _ _ => 0) 2 (-1) 1 ∧
      mergeDestCols (Arr.mk 8 9 fun _ _ => 0) (Arr.mk 2 3 fun _ _ => 0) 2 (-1) 1 =
        mergeSrcCols (Arr.mk 8 9 fun _ _ => 0) (Arr.mk 2 3 fun _ _ => 0) 2 (-1) 1 ∧
      mergeDestRows (Arr.mk 8 9 fun _ _ => 0) (Arr.mk 2 3 fun _ _ => 0) 2 (-1) 1 ≤ 8 ∧
      mergeSrcRows (Arr.mk 8 9 fun _ _ => 0) (Arr.mk 2 3 fun _ _ => 0) 2 (-1) 1 ≤ 2 ∧
      mergeDestCols (Arr.mk 8 9 fun _ _ => 0) (Arr.mk 2 3 fun _ _ => 0) 2 (-1) 1 ≤ 9 ∧
      mergeSrcCols (Arr.mk 8 9 fun _ _ => 0) (Arr.mk 2 3 fun _ _ => 0) 2 (-1) 1 ≤ 3) :=
  ⟨by decide, by decide, by decide, by decide, by decide,
    merge_data_slices_safe (Arr.mk 8 9 fun _ _ => 0) (Arr.mk 2 3 fun _ _ => 0) 2 (-1) 1
      (by decide) (by decide) (by decide) (by decide) (by decide)⟩

/-- C10 counterexample. With `offset_x = 0`, `source width = destination
width = 1` (so the claimed hypotheses hold), the vertical offset `3` on a
destination of height 2 and source of height 3 selects 0 destination rows but
2 source rows (numpy resolves the negative stop `y2_max = -1` from the end of
the source), so the two slice rectangles do NOT have equal height; likewise a
negative `overlap_x = -1` with `offset_x = 1` selects 3 destination columns
against 2 source columns. -/
theorem merge_data_slices_unsafe_cex :
    (mergeDestRows (Arr.mk 2 1 fun _ _ => 0) (Arr.mk 3 1 fun _ _ => 0) 0 3 0 = 0 ∧
      mergeSrcRows (Arr.mk 2 1 fun _ _ => 0) (Arr.mk 3 1 fun _ _ => 0) 0 3 0 = 2) ∧
    (mergeDestCols (Arr.mk 1 4 fun _ _ => 0) (Arr.mk 1 2 fun _ _ => 0) 1 0 (-1) = 3 ∧
      mergeSrcCols (Arr.mk 1 4 fun _ _ => 0) (Arr.mk 1 2 fun _ _ => 0) 1 0 (-1) = 2) := by
  decide

/-! ## Claims about the canvas height and the crop (`_stitch_images`,
`_crop_stitched_image`) -/

theorem foldl_max_pull : ∀ (l : List ℤ) (a b : ℤ), l.foldl max (max a b) = max a (l.foldl max b)
  | [], _, _ => rfl
  | x :: r, a, b => by
    show r.foldl max (max (max a b) x) = max a (r.foldl max (max b x))
    rw [max_assoc, foldl_max_pull r a (max b x)]

theorem foldl_min_pull : ∀ (l : List ℤ) (a b : ℤ), l.foldl min (min a b) = min a (l.foldl min b)
  | [], _, _ => rfl
  | x :: r, a, b => by
    show r.foldl min (min (min a b) x) = min a (r.foldl min (min b x))
    rw [min_assoc, foldl_min_pull r a (min b x)]

theorem foldl_max_cons (acc x : ℤ) (r : List ℤ) :
    (x :: r).foldl max acc = max acc (listMax (x :: r)) := by
  show r.foldl max (max acc x) = max acc (r.foldl max x)
  exact foldl_max_pull r acc x

theorem foldl_min_cons (acc x : ℤ) (r : List ℤ) :
    (x :: r).foldl min acc = min acc (listMin (x :: r)) := by
  show r.foldl min (min acc x) = min acc (r.foldl min x)
  exact foldl_min_pull r acc x

theorem le_foldl_max : ∀ (l : List ℤ) (a : ℤ), a ≤ l.foldl max a
  | [], _ => le_rfl
  | x :: r, a => le_trans (le_max_left a x) (le_foldl_max r (max a x))

theorem foldl_min_le : ∀ (l : List ℤ) (a : ℤ), l.foldl min a ≤ a
  | [], _ => le_rfl
  | x :: r, a => le_trans (foldl_min_le r (min a x)) (min_le_left a x)

theorem head_le_listMax (x : ℤ) (r : List ℤ) : x ≤ listMax (x :: r) :=
  le_foldl_max r x

theorem listMin_le_head (x : ℤ) (r : List ℤ) : listMin (x :: r) ≤ x :=
  foldl_min_le r x

theorem foldl_max_map_add : ∀ (l : List ℤ) (a c : ℤ),
    (l.map (fun v => v + c)).foldl max (a + c) = l.foldl max a + c
  | [], _, _ => rfl
  | x :: r, a, c => by
    show (r.map (fun v => v + c)).foldl max (max (a + c) (x + c)) = r.foldl max (max a x) + c
    rw [max_add_add_right, foldl_max_map_add r (max a x) c]

theorem listMax_map_add (x : ℤ) (r : List ℤ) (c : ℤ) :
    listMax ((x :: r).map (fun v => v + c)) = listMax (x :: r) + c := by
  show (r.map (fun v => v + c)).foldl max (x + c) = r.foldl max x + c
  exact foldl_max_map_add r x c

theorem extentList_shift : ∀ (metas : List ScanMetadata) (off c : ℤ),
    extentList (off + c) metas = (extentList off metas).map (fun p => (p.1 + c, p.2 + c))
  | [], _, _ => rfl
  | m :: r, off, c => by
    simp only [extentList, List.map_cons, List.cons.injEq, Prod.mk.injEq]
    refine ⟨⟨by ring, by ring⟩, ?_⟩
    have := extentList_shift r (off + m.translate_y) c
    rw [show off + c + m.translate_y = off + m.translate_y + c by ring, this]

theorem cropStart_fold : ∀ (metas : List ScanMetadata) (off acc : ℤ),
    (metas.foldl
      (fun s m =>
        let o := s.1 + m.translate_y
        (o, max s.2 o)) (off, acc)).2 =
      ((extentList off metas).map Prod.fst).foldl max acc
  | [], _, _ => rfl
  | m :: r, off, acc => by
    simp only [List.foldl, extentList, List.map_cons]
    exact cropStart_fold r (off + m.translate_y) (max acc (off + m.translate_y))

theorem cropStop_fold : ∀ (metas : List ScanMetadata) (off acc : ℤ),
    (metas.foldl
      (fun s m =>
        let o := s.1 + m.translate_y
        (o, min s.2 ((m.height : ℤ) + o))) (off, acc)).2 =
      ((extentList off metas).map Prod.snd).foldl min acc
  | [], _, _ => rfl
  | m :: r, off, acc => by
    simp only [List.foldl, extentList, List.map_cons]
    rw [show off + m.translate_y + (m.height : ℤ) = (m.height : ℤ) + (off + m.translate_y) by
      ring]
    exact cropStop_fold r (off + m.translate_y) (min acc ((m.height : ℤ) + (off + m.translate_y)))

theorem totalHeight_fold : ∀ (metas : List ScanMetadata) (off acc : ℤ),
    (metas.foldl
      (fun s m =>
        let o := s.1 + m.translate_y
        (o, max s.2 (o + (m.height : ℤ)))) (off, acc)).2 =
      ((extentList off metas).map Prod.snd).foldl max acc
  | [], _, _ => rfl
  | m :: r, off, acc => by
    simp only [List.foldl, extentList, List.map_cons]
    exact totalHeight_fold r (off + m.translate_y) (max acc (off + m.translate_y + (m.height : ℤ)))

theorem offsetY0_aux_nonpos : ∀ (metas : List ScanMetadata) (off acc : ℤ), acc ≤ 0 →
    (metas.foldl
      (fun s m =>
        let o := s.1 + m.translate_y
        (o, if o < 0 then o else s.2)) (off, acc)).2 ≤ 0
  | [], _, _, h => h
  | m :: r, off, acc, h => by
    simp only [List.foldl]
    refine offsetY0_aux_nonpos r (off + m.translate_y) _ ?_
    split
    · omega
    · exact h

theorem offsetY0_nonpos (metas : List ScanMetadata) : offsetY0 metas ≤ 0 :=
  offsetY0_aux_nonpos metas 0 0 le_rfl

theorem totalHeight_eq (m0 : ScanMetadata) (rest : List ScanMetadata)
    (hty : m0.translate_y = 0) :
    totalHeight (m0 :: rest) =
      listMax ((extentList 0 (m0 :: rest)).map Prod.snd) - offsetY0 (m0 :: rest) := by
  have hb := offsetY0_nonpos (m0 :: rest)
  unfold totalHeight
  rw [totalHeight_fold (m0 :: rest) (-offsetY0 (m0 :: rest)) 0]
  have h2 : extentList (-offsetY0 (m0 :: rest)) (m0 :: rest) =
      (extentList 0 (m0 :: rest)).map
        (fun p => (p.1 + -offsetY0 (m0 :: rest), p.2 + -offsetY0 (m0 :: rest))) := by
    have := extentList_shift (m0 :: rest) 0 (-offsetY0 (m0 :: rest))
    rwa [zero_add] at this
  rw [h2, List.map_map]
  have h3 : (Prod.snd ∘ fun p : ℤ × ℤ =>
      (p.1 + -offsetY0 (m0 :: rest), p.2 + -offsetY0 (m0 :: rest))) =
      fun p : ℤ × ℤ => p.2 + -offsetY0 (m0 :: rest) := rfl
  rw [h3]
  have hext : extentList 0 (m0 :: rest) = (0, (m0.height : ℤ)) :: extentList 0 rest := by
    simp [extentList, hty]
  have h4 : (extentList 0 (m0 :: rest)).map (fun p : ℤ × ℤ => p.2 + -offsetY0 (m0 :: rest)) =
      ((extentList 0 (m0 :: rest)).map Prod.snd).map (fun v => v + -offsetY0 (m0 :: rest)) := by
    rw [List.map_map]
    rfl
  rw [h4, hext]
  rw [show ((0, (m0.height : ℤ)) :: extentList 0 rest).map Prod.snd =
      (m0.height : ℤ) :: (extentList 0 rest).map Prod.snd from rfl]
  rw [List.map_cons, foldl_max_cons,
    show ((m0.height : ℤ) + -offsetY0 (m0 :: rest)) ::
        ((extentList 0 rest).map Prod.snd).map (fun v => v + -offsetY0 (m0 :: rest)) =
      ((m0.height : ℤ) :: (extentList 0 rest).map Prod.snd).map
        (fun v => v + -offsetY0 (m0 :: rest)) from rfl,
    listMax_map_add]
  have hhead := head_le_listMax (m0.height : ℤ) ((extentList 0 rest).map Prod.snd)
  have : (0 : ℤ) ≤ (m0.height : ℤ) := by positivity
  rw [max_eq_right (by omega)]
  omega

/-- C6 (amended). For a run whose first page has `translate_y = 0` (as
`_pre_stitch_image0` always emits): with crop disabled the final height is
`max` of the pages' cumulative bottoms MINUS the last negative cumulative
offset (`offset_y0`), which equals the union of the vertical extents exactly
when that last negative cumulative offset is the minimal one; with crop
enabled and a nonempty intersection the final height is the intersection of
the vertical extents (min of bottoms minus max of tops). -/
theorem stitch_height_formulas (m0 : ScanMetadata) (rest : List ScanMetadata)
    (hty : m0.translate_y = 0) :
    ((stitchedHeight false (m0 :: rest) : ℤ) =
      listMax ((extentList 0 (m0 :: rest)).map Prod.snd) - offsetY0 (m0 :: rest)) ∧
    (offsetY0 (m0 :: rest) = listMin ((extentList 0 (m0 :: rest)).map Prod.fst) →
      (stitchedHeight false (m0 :: rest) : ℤ) = unionHeight (m0 :: rest)) ∧
    (0 ≤ interHeight (m0 :: rest) →
      (stitchedHeight true (m0 :: rest) : ℤ) = interHeight (m0 :: rest)) := by
  have hb := offsetY0_nonpos (m0 :: rest)
  have hTH := totalHeight_eq m0 rest hty
  have hext : extentList 0 (m0 :: rest) = (0, (m0.height : ℤ)) :: extentList 0 rest := by
    simp [extentList, hty]
  have htops : (extentList 0 (m0 :: rest)).map Prod.fst =
      0 :: (extentList 0 rest).map Prod.fst := by rw [hext]; rfl
  have hbots : (extentList 0 (m0 :: rest)).map Prod.snd =
      (m0.height : ℤ) :: (extentList 0 rest).map Prod.snd := by rw [hext]; rfl
  have hmaxb : (0 : ℤ) ≤ listMax ((extentList 0 (m0 :: rest)).map Prod.snd) := by
    rw [hbots]
    exact le_trans (by positivity) (head_le_listMax _ _)
  have hmaxt : (0 : ℤ) ≤ listMax ((extentList 0 (m0 :: rest)).map Prod.fst) := by
    rw [htops]
    exact head_le_listMax _ _
  have hminmaxb : listMin ((extentList 0 (m0 :: rest)).map Prod.snd) ≤
      listMax ((extentList 0 (m0 :: rest)).map Prod.snd) := by
    rw [hbots]
    exact le_trans (listMin_le_head _ _) (head_le_listMax _ _)
  have hTH0 : 0 ≤ totalHeight (m0 :: rest) := by omega
  have hfalse : (stitchedHeight false (m0 :: rest) : ℤ) = totalHeight (m0 :: rest) := by
    simp only [stitchedHeight, if_neg Bool.false_ne_true]
    exact Int.toNat_of_nonneg hTH0
  refine ⟨by rw [hfalse, hTH], fun hlast => ?_, fun hin => ?_⟩
  · rw [hfalse, hTH, hlast]
    rfl
  · have hstart : cropStart (m0 :: rest) =
        listMax ((extentList 0 (m0 :: rest)).map Prod.fst) := by
      unfold cropStart
      rw [cropStart_fold (m0 :: rest) 0 0, htops, foldl_max_cons,
        max_eq_right (by rw [← htops]; exact hmaxt)]
    have hstop : cropStop (m0 :: rest) ((totalHeight (m0 :: rest)).toNat : ℤ) =
        listMin ((extentList 0 (m0 :: rest)).map Prod.snd) := by
      unfold cropStop
      rw [cropStop_fold (m0 :: rest) 0 _, hbots, foldl_min_cons, ← hbots,
        min_eq_right (by rw [Int.toNat_of_nonneg hTH0]; omega)]
    have hin2 : listMax ((extentList 0 (m0 :: rest)).map Prod.fst) ≤
        listMin ((extentList 0 (m0 :: rest)).map Prod.snd) := by
      have : interHeight (m0 :: rest) =
          listMin ((extentList 0 (m0 :: rest)).map Prod.snd) -
            listMax ((extentList 0 (m0 :: rest)).map Prod.fst) := rfl
      omega
    have hcrop : stitchedHeight true (m0 :: rest) = croppedHeight (m0 :: rest) := rfl
    rw [hcrop]
    simp only [croppedHeight]
    rw [hstart, hstop, pySliceLen_of_range hmaxt hin2
      (by rw [Int.toNat_of_nonneg hTH0]; omega)]
    have : interHeight (m0 :: rest) =
        listMin ((extentList 0 (m0 :: rest)).map Prod.snd) -
          listMax ((extentList 0 (m0 :: rest)).map Prod.fst) := rfl
    omega

/-- C6 witness: two pages of height 10 with cumulative offsets 0 and 2; crop
disabled gives height 12, the union; crop enabled gives height 8, the
intersection. -/
theorem stitch_height_formulas_witness :
    (ScanMetadata.mk 0 0 0 10 10).translate_y = 0 ∧
    (((stitchedHeight false
        (ScanMetadata.mk 0 0 0 10 10 :: [ScanMetadata.mk 0 5 2 10 10]) : ℤ) =
      listMax ((extentList 0
        (ScanMetadata.mk 0 0 0 10 10 :: [ScanMetadata.mk 0 5 2 10 10])).map Prod.snd) -
        offsetY0 (ScanMetadata.mk 0 0 0 10 10 :: [ScanMetadata.mk 0 5 2 10 10])) ∧
    (offsetY0 (ScanMetadata.mk 0 0 0 10 10 :: [ScanMetadata.mk 0 5 2 10 10]) =
        listMin ((extentList 0
          (ScanMetadata.mk 0 0 0 10 10 :: [ScanMetadata.mk 0 5 2 10 10])).map Prod.fst) →
      (stitchedHeight false
        (ScanMetadata.mk 0 0 0 10 10 :: [ScanMetadata.mk 0 5 2 10 10]) : ℤ) =
        unionHeight (ScanMetadata.mk 0 0 0 10 10 :: [ScanMetadata.mk 0 5 2 10 10])) ∧
    (0 ≤ interHeight (ScanMetadata.mk 0 0 0 10 10 :: [ScanMetadata.mk 0 5 2 10 10]) →
      (stitchedHeight true
        (ScanMetadata.mk 0 0 0 10 10 :: [ScanMetadata.mk 0 5 2 10 10]) : ℤ) =
        interHeight (ScanMetadata.mk 0 0 0 10 10 :: [ScanMetadata.mk 0 5 2 10 10]))) :=
  ⟨rfl, stitch_height_formulas (ScanMetadata.mk 0 0 0 10 10)
    [ScanMetadata.mk 0 5 2 10 10] rfl⟩

/-- C6 counterexample. Three pages of height 10 with `translate_y` offsets
0, -5, +2 (cumulative 0, -5, -3): the code shifts the canvas by the LAST
negative cumulative offset (-3), not the minimum (-5), so with crop disabled
the stitched height is 13 while the union of the vertical extents is 15. -/
theorem stitch_union_height_cex :
    stitchedHeight false
      [ScanMetadata.mk 0 0 0 10 10, ScanMetadata.mk 0 0 (-5) 10 10,
        ScanMetadata.mk 0 0 2 10 10] = 13 ∧
    unionHeight
      [ScanMetadata.mk 0 0 0 10 10, ScanMetadata.mk 0 0 (-5) 10 10,
        ScanMetadata.mk 0 0 2 10 10] = 15 ∧
    (stitchedHeight false
      [ScanMetadata.mk 0 0 0 10 10, ScanMetadata.mk 0 0 (-5) 10 10,
        ScanMetadata.mk 0 0 2 10 10] : ℤ) ≠
      unionHeight
        [ScanMetadata.mk 0 0 0 10 10, ScanMetadata.mk 0 0 (-5) 10 10,
          ScanMetadata.mk 0 0 2 10 10] := by
  refine ⟨?_, ?_, ?_⟩ <;> decide

/-! ## Claim about the automatic tile extractor (spec-modelled) -/

/-- C5. Whenever the automatic tile extractor returns a pair of tiles, the
squared distance of their origins strictly exceeds the squared tile diagonal
`tileWidth² + tileHeight²`, hence their Euclidean distance strictly exceeds
the tile diagonal: it never returns two tiles closer than that. -/
theorem extract_tiles_auto_distance (cfg : Config) (width height : ℕ)
    (score : Pos → ℤ) (a b : Pos)
    (h : extract_tiles_auto cfg width height score = .ok (a, b)) :
    diagSq cfg < distSq a b ∧
    Real.sqrt ((diagSq cfg : ℤ) : ℝ) < Real.sqrt ((distSq a b : ℤ) : ℝ) := by
  have main : diagSq cfg < distSq a b := by
    simp only [extract_tiles_auto] at h
    split at h
    · exact absurd h (by simp)
    · rename_i p q heq
      have hmem := List.argmax_mem heq
      have hprop := (List.mem_filter.mp hmem).2
      have hd : diagSq cfg < distSq p q := of_decide_eq_true hprop
      have hpq : (if p.y ≤ q.y then (p, q) else (q, p)) = (a, b) := by
        injection h
      have hsymm : distSq q p = distSq p q := by
        unfold distSq
        ring
      split at hpq
      · obtain ⟨rfl, rfl⟩ := Prod.mk.injEq .. ▸ hpq
        exact hd
      · obtain ⟨rfl, rfl⟩ := Prod.mk.injEq .. ▸ hpq
        rw [hsymm]
        exact hd
  have h0 : (0 : ℤ) ≤ diagSq cfg := by
    unfold diagSq
    positivity
  refine ⟨main, Real.sqrt_lt_sqrt (by exact_mod_cast h0) (by exact_mod_cast main)⟩

set_option maxRecDepth 40000 in
/-- C5 witness: on a 4×4 grid with uniform scores the extractor returns the
tiles at (0,0) and (3,3), whose squared origin distance 18 exceeds the
squared tile diagonal 8. -/
theorem extract_tiles_auto_distance_witness :
    extract_tiles_auto cfg5 4 4 (fun _ => 1) = .ok (Pos.mk 0 0, Pos.mk 3 3) ∧
    (diagSq cfg5 < distSq (Pos.mk 0 0) (Pos.mk 3 3) ∧
      Real.sqrt ((diagSq cfg5 : ℤ) : ℝ) <
        Real.sqrt ((distSq (Pos.mk 0 0) (Pos.mk 3 3) : ℤ) : ℝ)) :=
  ⟨by decide, extract_tiles_auto_distance cfg5 4 4 (fun _ => 1) (Pos.mk 0 0) (Pos.mk 3 3)
    (by decide)⟩

/-! ## Claims about the PHASE1 control flow -/

/-- C3. (i) In any PHASE1 iteration (that the rotation guard lets through),
if either found tile's match score is strictly below `tile_match_min`, the
direction fails with a `StitchError`; (ii) when the forward direction fails,
the result is exactly the single reversed attempt (extract from the previous
page, RIGHT side, no hint), whose own error propagates; (iii) any page whose
both directions fail aborts the whole pre-stitch pass, so no final output is
produced for any page. -/
theorem phase1_retry_and_thresholds (cfg : Config) :
    (∀ (w h : ℕ) (sign : ℤ) (extract : ℕ → Except StitchErrKind (Pos × Pos))
        (find : ℕ → Pos × Pos → (Pos × ℚ) × (Pos × ℚ))
        (fuel iter : ℕ) (angle delta : ℝ) (last : Option (Pos × Pos)) (tt tb : Pos),
      extract iter = .ok (tt, tb) →
      ((find iter (tt, tb)).1.2 < cfg.tile_match_min ∨
        (find iter (tt, tb)).2.2 < cfg.tile_match_min) →
      ¬(angle - delta > cfg.rotation_max) →
      phase1Loop cfg w h sign extract find (fuel + 1) iter angle delta last =
          .error .matchTopBelow ∨
        phase1Loop cfg w h sign extract find (fuel + 1) iter angle delta last =
          .error .matchBottomBelow) ∧
    (∀ (w h : ℕ) (hint : Option TileHint) (env : P1Env) (e : StitchErrKind),
      phase1Helper cfg w h 1 (env.extract Side.LEFT hint) (env.find Side.LEFT) = .error e →
      phase1 cfg w h hint env =
        (match phase1Helper cfg w h (-1) (env.extract Side.RIGHT none)
            (env.find Side.RIGHT) with
        | .ok meta => .ok (Side.RIGHT, meta)
        | .error e2 => .error e2)) ∧
    (∀ (pages : List PageEnv) (p : PageEnv) (e : StitchErrKind), p ∈ pages →
      phase1 cfg p.w p.h p.hint p.env = .error e →
      ∃ e2, preStitchImages cfg pages = .error e2) := by
  refine ⟨?_, ?_, ?_⟩
  · intro w h sign extract find fuel iter angle delta last tt tb hex hsc hang
    simp only [phase1Loop, hex, if_neg hang]
    by_cases h1 : (find iter (tt, tb)).1.2 < cfg.tile_match_min
    · left
      rw [if_pos h1]
    · right
      rcases hsc with h1b | h2
      · exact absurd h1b h1
      · rw [if_neg h1, if_pos h2]
  · intro w h hint env e hfwd
    simp only [phase1, hfwd]
  · intro pages
    induction pages with
    | nil => intro p e hp _; cases hp
    | cons q rest ih =>
      intro p e hp hperr
      rcases List.mem_cons.mp hp with rfl | htail
      · refine ⟨e, ?_⟩
        simp only [preStitchImages, hperr]
      · rcases hq : phase1 cfg q.w q.h q.hint q.env with e0 | sm
        · refine ⟨e0, ?_⟩
          simp only [preStitchImages, hq]
        · obtain ⟨e2, he2⟩ := ih p e htail hperr
          refine ⟨e2, ?_⟩
          simp only [preStitchImages, hq, he2]

theorem phase1Helper_env3_error (sign : ℤ) (side : Side) (hint : Option TileHint) :
    phase1Helper cfg3 100 100 sign (env3.extract side hint) (env3.find side) =
      .error .tileSearchExhausted := by
  have hL : phase1Loop cfg3 100 100 sign (env3.extract side hint) (env3.find side)
      (4 + 1) 0 0 0 none = .error .tileSearchExhausted := by
    simp only [phase1Loop, env3]
    rw [if_neg (by norm_num [cfg3])]
  have h5 : cfg3.tile_iterations_max = 4 + 1 := rfl
  simp only [phase1Helper, h5, hL]

/-- C3 witness: a below-threshold match score fails the iteration; a page
environment whose extraction always fails makes the forward attempt fail, the
reversed attempt is the result and also fails, and the one-page run aborts. -/
theorem phase1_retry_and_thresholds_witness :
    ex3 0 = .ok (⟨0, 0⟩, ⟨100, 0⟩) ∧
    ((find0 0 (⟨0, 0⟩, ⟨100, 0⟩)).1.2 < cfg3.tile_match_min ∨
      (find0 0 (⟨0, 0⟩, ⟨100, 0⟩)).2.2 < cfg3.tile_match_min) ∧
    ¬((0 : ℝ) - 0 > cfg3.rotation_max) ∧
    (phase1Loop cfg3 100 100 1 ex3 find0 (0 + 1) 0 0 0 none = .error .matchTopBelow ∨
      phase1Loop cfg3 100 100 1 ex3 find0 (0 + 1) 0 0 0 none = .error .matchBottomBelow) ∧
    phase1 cfg3 100 100 none env3 =
      (match phase1Helper cfg3 100 100 (-1) (env3.extract Side.RIGHT none)
          (env3.find Side.RIGHT) with
      | .ok meta => .ok (Side.RIGHT, meta)
      | .error e2 => .error e2) ∧
    (∃ e2, preStitchImages cfg3 [PageEnv.mk 100 100 none env3] = .error e2) := by
  have hex : ex3 0 = .ok (⟨0, 0⟩, ⟨100, 0⟩) := rfl
  have hsc : (find0 0 (⟨0, 0⟩, ⟨100, 0⟩)).1.2 < cfg3.tile_match_min ∨
      (find0 0 (⟨0, 0⟩, ⟨100, 0⟩)).2.2 < cfg3.tile_match_min := by
    left
    norm_num [find0, cfg3]
  have hang : ¬((0 : ℝ) - 0 > cfg3.rotation_max) := by norm_num [cfg3]
  have hfwd := phase1Helper_env3_error 1 Side.LEFT none
  have hpage : phase1 cfg3 100 100 none env3 = .error .tileSearchExhausted := by
    rw [(phase1_retry_and_thresholds cfg3).2.1 100 100 none env3 _ hfwd,
      phase1Helper_env3_error (-1) Side.RIGHT none]
  exact ⟨hex, hsc, hang,
    (phase1_retry_and_thresholds cfg3).1 100 100 1 ex3 find0 0 0 0 0 none _ _ hex hsc hang,
    (phase1_retry_and_thresholds cfg3).2.1 100 100 none env3 _ hfwd,
    (phase1_retry_and_thresholds cfg3).2.2 [PageEnv.mk 100 100 none env3]
      (PageEnv.mk 100 100 none env3) _ (List.mem_singleton.mpr rfl) hpage⟩

theorem phase1Loop_ok_bound (cfg : Config) (w h : ℕ) (sign : ℤ)
    (extract : ℕ → Except StitchErrKind (Pos × Pos))
    (find : ℕ → Pos × Pos → (Pos × ℚ) × (Pos × ℚ)) :
    ∀ (fuel iter : ℕ) (angle delta : ℝ) (last : Option (Pos × Pos))
      (a : ℝ) (st : Option (Pos × Pos)),
      phase1Loop cfg w h sign extract find fuel iter angle delta last = .ok (a, st) →
      a ≤ cfg.rotation_max ∨ a = angle := by
  intro fuel
  induction fuel with
  | zero =>
    intro iter angle delta last a st hok
    right
    simp only [phase1Loop, Except.ok.injEq, Prod.mk.injEq] at hok
    exact hok.1.symm
  | succ n ih =>
    intro iter angle delta last a st hok
    simp only [phase1Loop] at hok
    split at hok
    · cases hok
    · rename_i hguard
      split at hok
      · cases hok
      · split at hok
        · cases hok
        · split at hok
          · cases hok
          · split at hok
            · rcases ih _ _ _ _ _ _ hok with hle | heq
              · exact Or.inl hle
              · left
                rw [heq]
                exact le_of_not_lt fun hc => hguard hc
            · simp only [Except.ok.injEq, Prod.mk.injEq] at hok
              left
              rw [← hok.1]
              exact le_of_not_lt fun hc => hguard hc

/-- C4 (amended). The PHASE1 rotation guard is one-sided: (i) whenever the
accumulated correction at the start of an iteration EXCEEDS `rotation_max`
(signed, positive side), the iteration aborts with a `StitchError`; (ii)
consequently a successful direction never returns an accumulated rotation
above `rotation_max` — but the absolute value is NOT checked: arbitrarily
negative accumulated corrections pass the guard (see the counterexample). -/
theorem phase1_rotation_guard (cfg : Config) (w h : ℕ) (sign : ℤ)
    (extract : ℕ → Except StitchErrKind (Pos × Pos))
    (find : ℕ → Pos × Pos → (Pos × ℚ) × (Pos × ℚ)) :
    (∀ (fuel iter : ℕ) (angle delta : ℝ) (last : Option (Pos × Pos)),
      angle - delta > cfg.rotation_max →
      phase1Loop cfg w h sign extract find (fuel + 1) iter angle delta last =
        .error .rotationExceeded) ∧
    (0 ≤ cfg.rotation_max → ∀ m,
      phase1Helper cfg w h sign extract find = .ok m → m.rotate ≤ cfg.rotation_max) := by
  constructor
  · intro fuel iter angle delta last hguard
    simp only [phase1Loop]
    rw [if_pos hguard]
  · intro hmax m hok
    rcases hfuel : cfg.tile_iterations_max with _ | n
    · rw [phase1Helper, hfuel] at hok
      simp only [phase1Loop] at hok
      cases hok
    · rw [phase1Helper, hfuel] at hok
      rcases hloop : phase1Loop cfg w h sign extract find (n + 1) 0 0 0 none with e | p
      · rw [hloop] at hok
        cases hok
      · rw [hloop] at hok
        rcases p with ⟨angle, st⟩
        rcases st with _ | ⟨tt, mt⟩
        · cases hok
        · simp only [Except.ok.injEq] at hok
          have hb := phase1Loop_ok_bound cfg w h sign extract find (n + 1) 0 0 0 none
            angle (some (tt, mt)) hloop
          rw [← hok]
          rcases hb with hle | h0
          · exact hle
          · rw [h0]
            exact hmax

/-- C4 witness: with `rotation_max = 1`, an iteration entered with
accumulated correction `5` aborts with `rotationExceeded`, and the
counterexample run (which succeeds) indeed returns a rotation `≤ 1`. -/
theorem phase1_rotation_guard_witness :
    ((5 : ℝ) - 0 > cfg4.rotation_max) ∧
    phase1Loop cfg4 100 100 1 c4extract c4find (0 + 1) 0 5 0 none =
      .error .rotationExceeded := by
  have hg : (5 : ℝ) - 0 > cfg4.rotation_max := by norm_num [cfg4]
  exact ⟨hg, (phase1_rotation_guard cfg4 100 100 1 c4extract c4find).1 0 0 5 0 none hg⟩

open Real in
/-- C4 counterexample. With `rotation_max = 1°`, a run whose first iteration
measures a +90° discrepancy accumulates the correction `angle = -90°`; the
guard `angle > rotation_max` does not fire (it ignores the sign), the page is
re-rotated by -90° and the helper returns successfully with
`rotate = -90`, although `|−90|` exceeds the configured maximum — no
`StitchError` is raised. -/
theorem phase1_rotation_guard_cex :
    phase1Helper cfg4 100 100 1 c4extract c4find = .ok ⟨-90, 5, 0⟩ ∧
    |(-90 : ℝ)| > cfg4.rotation_max := by
  have hatan2a : atan2 (100 : ℝ) 0 = π / 2 := atan2_zero_pos (by norm_num)
  have hatan2b : atan2 (0 : ℝ) 100 = 0 := by
    rw [atan2_of_pos (by norm_num)]
    norm_num
  have hdz : degreesOf (0 : ℝ) = 0 := by
    unfold degreesOf
    ring
  have heff90 : rotation_has_effect 100 100 (90 : ℝ) := by
    rw [rotation_has_effect_iff_eps, abs_of_nonneg (by norm_num : (0 : ℝ) ≤ 90)]
    exact le_trans (rotationEps_le_90 100 100) (by norm_num)
  have hneff0 : ¬ rotation_has_effect 100 100 (0 : ℝ) := by
    rw [rotation_has_effect_iff_eps, abs_zero]
    exact not_le.mpr (rotationEps_pos 100 100)
  have h5 : cfg4.tile_iterations_max = 4 + 1 := rfl
  constructor
  · simp only [phase1Helper, h5, phase1Loop, c4extract, c4find]
    norm_num [cfg4, hatan2a, hatan2b, degreesOf_pi_div_two, hdz, heff90, hneff0]
  · norm_num [cfg4]

/-! ## Claims about `rotate` / `rotation_has_effect` -/

/-- C9. When `rotation_has_effect` is false, `rotate` is the identity: it
returns the image itself (the very same value, hence equal pixel data, width
and height); in particular every angle strictly below the per-image epsilon
is a fixed point of `rotate`. -/
theorem rotate_no_effect_identity (img : Image) (a : ℝ)
    (h : ¬ rotation_has_effect img.width img.height a) :
    img.rotate a = img ∧ (img.rotate a).width = img.width ∧
    (img.rotate a).height = img.height ∧
    (∀ b : ℝ, |b| < rotationEps img.width img.height → img.rotate b = img) := by
  have hid : img.rotate a = img := by
    unfold Image.rotate
    rw [if_neg h]
  refine ⟨hid, by rw [hid], by rw [hid], fun b hb => ?_⟩
  unfold Image.rotate
  rw [if_neg]
  rw [rotation_has_effect_iff_eps]
  exact not_le.mpr hb

/-- C9 witness. -/
theorem rotate_no_effect_identity_witness :
    ¬ rotation_has_effect (Image.mk (ImgData.raw 100 100 0)).width
        (Image.mk (ImgData.raw 100 100 0)).height 0 ∧
    ((Image.mk (ImgData.raw 100 100 0)).rotate 0 = Image.mk (ImgData.raw 100 100 0) ∧
      ((Image.mk (ImgData.raw 100 100 0)).rotate 0).width =
        (Image.mk (ImgData.raw 100 100 0)).width ∧
      ((Image.mk (ImgData.raw 100 100 0)).rotate 0).height =
        (Image.mk (ImgData.raw 100 100 0)).height ∧
      (∀ b : ℝ, |b| < rotationEps (Image.mk (ImgData.raw 100 100 0)).width
          (Image.mk (ImgData.raw 100 100 0)).height →
        (Image.mk (ImgData.raw 100 100 0)).rotate b = Image.mk (ImgData.raw 100 100 0))) := by
  have h : ¬ rotation_has_effect (Image.mk (ImgData.raw 100 100 0)).width
      (Image.mk (ImgData.raw 100 100 0)).height 0 := by
    rw [rotation_has_effect_iff_eps, abs_zero]
    exact not_le.mpr (rotationEps_pos _ _)
  exact ⟨h, rotate_no_effect_identity (Image.mk (ImgData.raw 100 100 0)) 0 h⟩

open Real in
/-- C2 (amended). The per-image epsilon uses FLOOR division: for images with
`max(w,h) ≥ 2`, `rotation_has_effect(a)` holds iff
`|a| ≥ degrees(atan(1 / (max(w,h) // 2)))` (true at and above the epsilon,
false below), and the epsilon is monotonically non-increasing in the image
size. The claimed closed form with true division `max(w,h)/2` fails for odd
`max(w,h)`, see the counterexample. -/
theorem rotation_has_effect_characterization :
    (∀ (w h : ℕ) (a : ℝ), 2 ≤ max w h →
      (rotation_has_effect w h a ↔
        |a| ≥ degreesOf (arctan (1 / ((max w h / 2 : ℕ) : ℝ))))) ∧
    (∀ w h w2 h2 : ℕ, max w h ≤ max w2 h2 → rotationEps w2 h2 ≤ rotationEps w h) := by
  constructor
  · intro w h a hmax
    have hk : 0 < max w h / 2 := by omega
    unfold rotation_has_effect
    rw [atan2_of_pos (by exact_mod_cast hk)]
  · intro w h w2 h2 hle
    have hkk : max w h / 2 ≤ max w2 h2 / 2 := Nat.div_le_div_right hle
    rcases Nat.eq_zero_or_pos (max w h / 2) with h0 | h0
    · have h90 : rotationEps w h = 90 := by
        unfold rotationEps
        rw [h0]
        push_cast
        rw [atan2_zero_pos (by norm_num), degreesOf_pi_div_two]
      rw [h90]
      exact rotationEps_le_90 w2 h2
    · have h02 : 0 < max w2 h2 / 2 := lt_of_lt_of_le h0 hkk
      unfold rotationEps
      rw [atan2_of_pos (by exact_mod_cast h02), atan2_of_pos (by exact_mod_cast h0)]
      apply degreesOf_le_degreesOf
      apply arctan_strictMono.monotone
      rw [one_div, one_div]
      apply inv_le_inv_of_le (by exact_mod_cast h0)
      exact_mod_cast hkk

open Real in
/-- C2 witness. -/
theorem rotation_has_effect_characterization_witness :
    2 ≤ max 4 4 ∧
    (rotation_has_effect 4 4 45 ↔
      (45 : ℝ) ≥ degreesOf (arctan (1 / ((max 4 4 / 2 : ℕ) : ℝ)))) ∧
    max 2 2 ≤ max 4 4 ∧ rotationEps 4 4 ≤ rotationEps 2 2 := by
  refine ⟨by norm_num, ?_, by norm_num, ?_⟩
  · have := rotation_has_effect_characterization.1 4 4 45 (by norm_num)
    rwa [abs_of_nonneg (by norm_num : (0 : ℝ) ≤ 45)] at this
  · exact rotation_has_effect_characterization.2 2 2 4 4 (by norm_num)

open Real in
/-- C2 counterexample. On a 3×3 image the code epsilon is
`degrees(atan(1 / (3 // 2))) = degrees(atan 1) = 45°`, so
`rotation_has_effect(40)` is FALSE, while the claimed formula
`atan(1/(max(w,h)/2)) = atan(2/3) ≈ 33.69°` would make `|40| ≥ ε` TRUE. -/
theorem rotation_has_effect_claim_cex :
    ¬ rotation_has_effect 3 3 40 ∧
    (40 : ℝ) ≥ degreesOf (arctan (1 / (((max 3 3 : ℕ) : ℝ) / 2))) := by
  constructor
  · have heps : rotationEps 3 3 = 45 := by
      unfold rotationEps
      norm_num
      rw [atan2_of_pos (by norm_num)]
      norm_num [arctan_one]
      unfold degreesOf
      field_simp
      ring
    rw [rotation_has_effect_iff_eps, heps, abs_of_nonneg (by norm_num : (0 : ℝ) ≤ 40)]
    norm_num
  · have h1 : arctan (1 / (((max 3 3 : ℕ) : ℝ) / 2)) = arctan (2 / 3) := by
      norm_num
    rw [h1]
    have h2 : arctan (2 / 3) ≤ 2 / 3 := arctan_le_self (by norm_num)
    have h3 : degreesOf (arctan (2 / 3)) ≤ degreesOf (2 / 3) := degreesOf_le_degreesOf h2
    have h4 : degreesOf (2 / 3 : ℝ) ≤ 40 := by
      unfold degreesOf
      rw [show (2 / 3 : ℝ) * (180 / π) = 120 / π by ring, div_le_iff pi_pos]
      nlinarith [pi_gt_three]
    linarith

/-! ## Claim about the orientation detector -/

theorem axis0 {rm a : ℝ} (hrm : rm ≤ 45) (h : |a| < rm) :
    nearestRefAxis a = 0 ∧ ¬(|a - 90| < rm) ∧ ¬(|a + 90| < rm) := by
  have ha := abs_lt.mp h
  have hb1 : |a - 90| = 90 - a := by
    rw [abs_of_neg (by linarith)]
    ring
  have hb2 : |a + 90| = a + 90 := abs_of_nonneg (by linarith)
  refine ⟨?_, by rw [hb1]; intro hc; linarith,
    by rw [hb2]; intro hc; linarith⟩
  have hc1 : |a| ≤ |a - 90| := by
    rw [hb1]
    linarith
  have hc2 : |a| ≤ |a + 90| := by
    rw [hb2]
    linarith
  unfold nearestRefAxis
  rw [if_pos ⟨hc1, hc2⟩]

theorem axis90 {rm a : ℝ} (hrm : rm ≤ 45) (h : |a - 90| < rm) :
    nearestRefAxis a = 90 ∧ ¬(|a| < rm) ∧ ¬(|a + 90| < rm) := by
  have ha := abs_lt.mp h
  have haa : |a| = a := abs_of_nonneg (by linarith)
  have hb2 : |a + 90| = a + 90 := abs_of_nonneg (by linarith)
  refine ⟨?_, by rw [haa]; intro hc; linarith,
    by rw [hb2]; intro hc; linarith⟩
  have hnot : ¬(|a| ≤ |a - 90| ∧ |a| ≤ |a + 90|) := by
    rintro ⟨hc, -⟩
    rw [haa] at hc
    have := abs_lt.mp h
    linarith
  have hle : |a - 90| ≤ |a + 90| := by
    rw [hb2]
    linarith
  unfold nearestRefAxis
  rw [if_neg hnot, if_pos hle]

theorem axisNeg90 {rm a : ℝ} (hrm : rm ≤ 45) (h : |a + 90| < rm) :
    nearestRefAxis a = -90 ∧ ¬(|a| < rm) ∧ ¬(|a - 90| < rm) := by
  have ha := abs_lt.mp h
  have haa : |a| = -a := abs_of_neg (by linarith)
  have hb1 : |a - 90| = 90 - a := by
    rw [abs_of_neg (by linarith)]
    ring
  refine ⟨?_, by rw [haa]; intro hc; linarith,
    by rw [hb1]; intro hc; linarith⟩
  have hnot : ¬(|a| ≤ |a - 90| ∧ |a| ≤ |a + 90|) := by
    rintro ⟨-, hc⟩
    rw [haa] at hc
    linarith
  have hgt : ¬(|a - 90| ≤ |a + 90|) := by
    rw [hb1]
    intro hc
    linarith
  unfold nearestRefAxis
  rw [if_neg hnot, if_neg hgt]

open Classical in
theorem houghSamples_eq_specSamples (rm : ℝ) (w h : ℕ) (hrm : rm ≤ 45)
    (ls : List Seg) : houghSamples rm w h ls = specSamples rm w h ls := by
  induction ls with
  | nil => rfl
  | cons s r ih =>
    have hcons : houghSamples rm w h (s :: r) =
        (if segLength s > 0.1 * ((max w h : ℕ) : ℝ) then
          (if |segAngle s| < rm then [segAngle s] else []) ++
          (if |segAngle s - 90| < rm then [segAngle s - 90] else []) ++
          (if |segAngle s + 90| < rm then [segAngle s + 90] else []) ++
            houghSamples rm w h r
        else houghSamples rm w h r) := rfl
    have scons : specSamples rm w h (s :: r) =
        (if specQualifies rm w h s then
          (segAngle s - nearestRefAxis (segAngle s)) :: specSamples rm w h r
        else specSamples rm w h r) := rfl
    rw [hcons, scons, ih]
    by_cases hlen : segLength s > 0.1 * ((max w h : ℕ) : ℝ)
    · rw [if_pos hlen]
      by_cases h1 : |segAngle s| < rm
      · obtain ⟨hax, hn2, hn3⟩ := axis0 hrm h1
        rw [if_pos h1, if_neg hn2, if_neg hn3,
          if_pos (show specQualifies rm w h s from ⟨hlen, Or.inl h1⟩), hax]
        simp
      · by_cases h2 : |segAngle s - 90| < rm
        · obtain ⟨hax, hn1, hn3⟩ := axis90 hrm h2
          rw [if_neg h1, if_pos h2, if_neg hn3,
            if_pos (show specQualifies rm w h s from ⟨hlen, Or.inr (Or.inl h2)⟩), hax]
          simp
        · by_cases h3 : |segAngle s + 90| < rm
          · obtain ⟨hax, hn1, hn2⟩ := axisNeg90 hrm h3
            rw [if_neg h1, if_neg h2, if_pos h3,
              if_pos (show specQualifies rm w h s from ⟨hlen, Or.inr (Or.inr h3)⟩), hax]
            simp [sub_neg_eq_add]
          · rw [if_neg h1, if_neg h2, if_neg h3,
              if_neg (show ¬ specQualifies rm w h s from fun hq =>
                hq.2.elim h1 (fun hq2 => hq2.elim h2 h3))]
            simp
    · rw [if_neg hlen,
        if_neg (show ¬ specQualifies rm w h s from fun hq => hlen hq.1)]

open Classical in
theorem specSamples_nil_iff (rm : ℝ) (w h : ℕ) (ls : List Seg) :
    specSamples rm w h ls = [] ↔ ∀ s ∈ ls, ¬ specQualifies rm w h s := by
  induction ls with
  | nil => simp [specSamples]
  | cons s r ih =>
    have scons : specSamples rm w h (s :: r) =
        (if specQualifies rm w h s then
          (segAngle s - nearestRefAxis (segAngle s)) :: specSamples rm w h r
        else specSamples rm w h r) := rfl
    rw [scons]
    by_cases hq : specQualifies rm w h s
    · rw [if_pos hq]
      simp only [List.mem_cons]
      constructor
      · intro hc
        cases hc
      · intro hall
        exact absurd hq (hall s (Or.inl rfl))
    · rw [if_neg hq, ih]
      simp only [List.mem_cons]
      constructor
      · intro hall t ht
        rcases ht with rfl | ht
        · exact hq
        · exact hall t ht
      · intro hall t ht
        exact hall t (Or.inr ht)

/-- C7. For every `rotation_max` below 45° (so that a segment can be near at
most one reference axis, as the claim presupposes), `detect_orientation`
returns the arithmetic mean of the angle samples of the qualifying segments —
those longer than 10% of the larger dimension whose angle lies within
`rotation_max` of 0°, 90° or -90°, each normalized to its nearest reference
axis — and it returns `none` exactly when no segment qualifies. -/
theorem detect_orientation_spec (rm : ℝ) (w h : ℕ) (hl : Option (List Seg))
    (hrm : rm ≤ 45) :
    detect_orientation rm w h hl = spec_detect_orientation rm w h hl ∧
    (∀ ls, hl = some ls →
      (detect_orientation rm w h hl = none ↔ ∀ s ∈ ls, ¬ specQualifies rm w h s)) := by
  constructor
  · cases hl with
    | none => rfl
    | some ls =>
      simp only [detect_orientation, spec_detect_orientation,
        houghSamples_eq_specSamples rm w h hrm ls]
  · intro ls hls
    subst hls
    rw [← specSamples_nil_iff rm w h ls]
    simp only [detect_orientation, houghSamples_eq_specSamples rm w h hrm ls]
    constructor
    · intro hc
      by_cases hz : (specSamples rm w h ls).length = 0
      · exact List.length_eq_zero.mp hz
      · rw [if_neg hz] at hc
        cases hc
    · intro hnil
      rw [if_pos (by rw [hnil]; rfl)]

/-- C7 witness: one horizontal 50-pixel segment on a 100×100 page with
`rotation_max = 10°`. -/
theorem detect_orientation_spec_witness :
    (10 : ℝ) ≤ 45 ∧
    (detect_orientation 10 100 100 (some [Seg.mk 0 0 50 0]) =
        spec_detect_orientation 10 100 100 (some [Seg.mk 0 0 50 0]) ∧
      (∀ ls, (some [Seg.mk 0 0 50 0] : Option (List Seg)) = some ls →
        (detect_orientation 10 100 100 (some [Seg.mk 0 0 50 0]) = none ↔
          ∀ s ∈ ls, ¬ specQualifies 10 100 100 s))) :=
  ⟨by norm_num, detect_orientation_spec 10 100 100 (some [Seg.mk 0 0 50 0]) (by norm_num)⟩

/-! ## Claim about `rotate` and `_largest_rotated_rect` -/

open Real in
/-- Closed form of `_largest_rotated_rect` on the open first/fourth quadrant:
the quadrant reduction yields `α = |angle|`, the `γ = atan2(bb_w, bb_w)`
computation is constantly `π/4`, and both bounding-box dimensions are reduced
by the same amount `2·L·sin α·cos α/(sin α + cos α)`. -/
theorem largest_rotated_rect_closed (w h : ℕ) (hw : 0 < w) (hh : 0 < h)
    (t : ℝ) (h0 : t ≠ 0) (hlt : |t| < π / 2) :
    largest_rotated_rect w h t = cropRectFormula w h t := by
  have habs := abs_lt.mp hlt
  have hlen : (if w < h then (h : ℝ) else (w : ℝ)) = max (w : ℝ) (h : ℝ) := by
    split
    · rename_i hwh
      rw [max_eq_right]
      exact_mod_cast le_of_lt hwh
    · rename_i hwh
      rw [max_eq_left]
      exact_mod_cast not_lt.mp hwh
  rcases lt_or_gt_of_ne h0 with hneg | hpos
  · have hgt : -(π / 2) < t := habs.1
    have hcos : 0 < cos (-t) := cos_pos_of_mem_Ioo ⟨by linarith, by linarith [pi_pos]⟩
    have hsin : 0 < sin (-t) := sin_pos_of_pos_of_lt_pi (by linarith) (by linarith [pi_pos])
    have hq : ⌊t / (π / 2)⌋ = -1 := by
      rw [Int.floor_eq_iff]
      have hd : t / (π / 2) < 0 := div_neg_of_neg_of_pos hneg (by positivity)
      constructor
      · push_cast
        rw [le_div_iff (by positivity : (0 : ℝ) < π / 2)]
        linarith
      · push_cast
        linarith
    have hf1 : pyFMod (π - t) π = -t := by
      unfold pyFMod
      have h1 : ⌊(π - t) / π⌋ = 1 := by
        rw [Int.floor_eq_iff]
        constructor
        · push_cast
          rw [le_div_iff pi_pos]
          linarith
        · push_cast
          rw [div_lt_iff pi_pos]
          linarith [pi_pos]
      rw [h1]
      push_cast
      ring
    have hf2 : pyFMod (-t + π) π = -t := by
      unfold pyFMod
      have h1 : ⌊(-t + π) / π⌋ = 1 := by
        rw [Int.floor_eq_iff]
        constructor
        · push_cast
          rw [le_div_iff pi_pos]
          linarith
        · push_cast
          rw [div_lt_iff pi_pos]
          linarith [pi_pos]
      rw [h1]
      push_cast
      ring
    have hbb : 0 < (w : ℝ) * cos (-t) + (h : ℝ) * sin (-t) := by
      have hw1 : (1 : ℝ) ≤ (w : ℝ) := by exact_mod_cast hw
      have hh1 : (1 : ℝ) ≤ (h : ℝ) := by exact_mod_cast hh
      nlinarith
    have hgamma : atan2 ((w : ℝ) * cos (-t) + (h : ℝ) * sin (-t))
        ((w : ℝ) * cos (-t) + (h : ℝ) * sin (-t)) = π / 4 := by
      rw [atan2_of_pos hbb, div_self (ne_of_gt hbb), arctan_one]
    simp only [largest_rotated_rect, cropRectFormula]
    rw [hq]
    rw [if_neg (by decide : ¬(((-1 : ℤ) % 4) % 2 = 0))]
    rw [hf1, hf2, ite_self, hgamma]
    rw [show π - -t - π / 4 = π - (-t + π / 4) by ring, sin_pi_sub, sin_add,
      cos_pi_div_four, sin_pi_div_four, tan_pi_div_four, abs_of_neg hneg]
    rw [hlen]
    have hyv : ((max (w : ℝ) (h : ℝ)) * cos (-t) * sin (-t) /
        (sin (-t) * (Real.sqrt 2 / 2) + cos (-t) * (Real.sqrt 2 / 2)) * (Real.sqrt 2 / 2)) =
        (max (w : ℝ) (h : ℝ)) * sin (-t) * cos (-t) / (sin (-t) + cos (-t)) := by
      rw [show sin (-t) * (Real.sqrt 2 / 2) + cos (-t) * (Real.sqrt 2 / 2) =
          (sin (-t) + cos (-t)) * (Real.sqrt 2 / 2) by ring,
        div_mul_eq_mul_div,
        mul_div_mul_right _ _ (show (Real.sqrt 2 / 2 : ℝ) ≠ 0 by positivity)]
      ring
    rw [mul_one, hyv]
  · have hlt2 : t < π / 2 := habs.2
    have hcos : 0 < cos t := cos_pos_of_mem_Ioo ⟨by linarith [pi_pos], hlt2⟩
    have hsin : 0 < sin t := sin_pos_of_pos_of_lt_pi hpos (by linarith [pi_pos])
    have hq : ⌊t / (π / 2)⌋ = 0 := by
      rw [Int.floor_eq_zero_iff]
      constructor
      · positivity
      · rw [div_lt_one (by positivity)]
        exact hlt2
    have hf1 : pyFMod t π = t := by
      unfold pyFMod
      have h1 : ⌊t / π⌋ = 0 := by
        rw [Int.floor_eq_zero_iff]
        constructor
        · positivity
        · rw [div_lt_one pi_pos]
          linarith [pi_pos]
      rw [h1]
      push_cast
      ring
    have hf2 : pyFMod (t + π) π = t := by
      unfold pyFMod
      have h1 : ⌊(t + π) / π⌋ = 1 := by
        rw [Int.floor_eq_iff]
        constructor
        · push_cast
          rw [le_div_iff pi_pos]
          linarith [pi_pos]
        · push_cast
          rw [div_lt_iff pi_pos]
          linarith [pi_pos]
      rw [h1]
      push_cast
      ring
    have hbb : 0 < (w : ℝ) * cos t + (h : ℝ) * sin t := by
      have hw1 : (1 : ℝ) ≤ (w : ℝ) := by exact_mod_cast hw
      have hh1 : (1 : ℝ) ≤ (h : ℝ) := by exact_mod_cast hh
      nlinarith
    have hgamma : atan2 ((w : ℝ) * cos t + (h : ℝ) * sin t)
        ((w : ℝ) * cos t + (h : ℝ) * sin t) = π / 4 := by
      rw [atan2_of_pos hbb, div_self (ne_of_gt hbb), arctan_one]
    simp only [largest_rotated_rect, cropRectFormula]
    rw [hq]
    rw [if_pos (by decide : ((0 : ℤ) % 4) % 2 = 0)]
    rw [hf1, hf2, ite_self, hgamma]
    rw [show π - t - π / 4 = π - (t + π / 4) by ring, sin_pi_sub, sin_add,
      cos_pi_div_four, sin_pi_div_four, tan_pi_div_four, abs_of_pos hpos]
    rw [hlen]
    have hyv : ((max (w : ℝ) (h : ℝ)) * cos t * sin t /
        (sin t * (Real.sqrt 2 / 2) + cos t * (Real.sqrt 2 / 2)) * (Real.sqrt 2 / 2)) =
        (max (w : ℝ) (h : ℝ)) * sin t * cos t / (sin t + cos t) := by
      rw [show sin t * (Real.sqrt 2 / 2) + cos t * (Real.sqrt 2 / 2) =
          (sin t + cos t) * (Real.sqrt 2 / 2) by ring,
        div_mul_eq_mul_div,
        mul_div_mul_right _ _ (show (Real.sqrt 2 / 2 : ℝ) ≠ 0 by positivity)]
      ring
    rw [mul_one, hyv]

open Real in
/-- C1 (amended). For angles with effect in the open first/fourth quadrant,
`rotate` warps about the integer center at the unchanged canvas size and then
center-crops to the rectangle of the two-similar-triangles construction on
the angle reduced into its quadrant — whose `γ` is constantly `π/4`
(`atan2(bb_w, bb_w)` in both branches), so the crop is NOT in general the
largest axis-aligned rectangle inscribed in the rotated bounds (see the
counterexample). -/
theorem rotate_crop_construction (img : Image) (a : ℝ)
    (hw : 0 < img.width) (hh : 0 < img.height)
    (heff : rotation_has_effect img.width img.height a)
    (h0 : radians a ≠ 0) (hlt : |radians a| < π / 2) :
    img.rotate a = ⟨crop_around_center
        (ImgData.warped img.data ((img.width / 2 : ℕ) : ℤ) ((img.height / 2 : ℕ) : ℤ) a
          img.width img.height)
        (cropRectFormula img.width img.height (radians a)).1
        (cropRectFormula img.width img.height (radians a)).2⟩ ∧
    largest_rotated_rect img.width img.height (radians a) =
      cropRectFormula img.width img.height (radians a) := by
  have hr := largest_rotated_rect_closed img.width img.height hw hh (radians a) h0 hlt
  constructor
  · simp only [Image.rotate]
    rw [if_pos heff, hr]
  · exact hr

open Real in
/-- C1 witness: a 100×100 image rotated by 45°. -/
theorem rotate_crop_construction_witness :
    0 < (Image.mk (ImgData.raw 100 100 0)).width ∧
    0 < (Image.mk (ImgData.raw 100 100 0)).height ∧
    rotation_has_effect (Image.mk (ImgData.raw 100 100 0)).width
      (Image.mk (ImgData.raw 100 100 0)).height 45 ∧
    radians 45 ≠ 0 ∧ |radians 45| < π / 2 ∧
    largest_rotated_rect (Image.mk (ImgData.raw 100 100 0)).width
        (Image.mk (ImgData.raw 100 100 0)).height (radians 45) =
      cropRectFormula (Image.mk (ImgData.raw 100 100 0)).width
        (Image.mk (ImgData.raw 100 100 0)).height (radians 45) := by
  have hw : 0 < (Image.mk (ImgData.raw 100 100 0)).width := by decide
  have hh : 0 < (Image.mk (ImgData.raw 100 100 0)).height := by decide
  have hrad : radians 45 = π / 4 := by
    unfold radians
    ring
  have heff : rotation_has_effect (Image.mk (ImgData.raw 100 100 0)).width
      (Image.mk (ImgData.raw 100 100 0)).height 45 := by
    show rotation_has_effect 100 100 45
    rw [rotation_has_effect_iff_eps, abs_of_nonneg (by norm_num : (0 : ℝ) ≤ 45)]
    have h50 : ((max 100 100 / 2 : ℕ) : ℝ) = 50 := by norm_num
    unfold rotationEps
    rw [h50, atan2_of_pos (by norm_num)]
    have h1 : arctan (1 / 50) ≤ arctan 1 := arctan_strictMono.monotone (by norm_num)
    have h2 := degreesOf_le_degreesOf h1
    rw [arctan_one] at h2
    have h3 : degreesOf (π / 4) = 45 := by
      unfold degreesOf
      field_simp
      ring
    linarith
  have h0 : radians 45 ≠ 0 := by
    rw [hrad]
    positivity
  have hlt : |radians 45| < π / 2 := by
    rw [hrad, abs_of_pos (by positivity)]
    linarith [pi_pos]
  exact ⟨hw, hh, heff, h0, hlt,
    (rotate_crop_construction (Image.mk (ImgData.raw 100 100 0)) 45 hw hh heff h0 hlt).2⟩

open Real in
/-- C1 counterexample. At `w = 1000`, `h = 500`, `angle = atan(3/4)`
(`sin = 3/5`, `cos = 4/5`) the construction crops to
`(2900/7, 2200/7) ≈ (414.3, 314.3)`, but the axis-aligned rectangle
`(1250/3, 625/2) ≈ (416.7, 312.5)` is also inscribed in the rotated bounds
and has strictly larger area — so the crop is NOT the largest inscribed
axis-aligned rectangle. -/
theorem rotate_crop_not_largest :
    largest_rotated_rect 1000 500 (arctan (3 / 4)) = (2900 / 7, 2200 / 7) ∧
    inscribedRect 1000 500 (arctan (3 / 4)) (1250 / 3) (625 / 2) ∧
    (2900 / 7 : ℝ) * (2200 / 7) < (1250 / 3 : ℝ) * (625 / 2) := by
  have hpos : 0 < arctan (3 / 4) := by
    have := arctan_strictMono (show (0 : ℝ) < 3 / 4 by norm_num)
    rwa [arctan_zero] at this
  have hsq : Real.sqrt (1 + (3 / 4 : ℝ) ^ 2) = 5 / 4 := by
    rw [show (1 + (3 / 4 : ℝ) ^ 2) = (5 / 4) ^ 2 by norm_num]
    exact Real.sqrt_sq (by norm_num)
  have hsin : sin (arctan (3 / 4)) = 3 / 5 := by
    rw [sin_arctan, hsq]
    norm_num
  have hcos : cos (arctan (3 / 4)) = 4 / 5 := by
    rw [cos_arctan, hsq]
    norm_num
  refine ⟨?_, ?_, by norm_num⟩
  · rw [largest_rotated_rect_closed 1000 500 (by norm_num) (by norm_num) _
      (ne_of_gt hpos) (by rw [abs_of_pos hpos]; exact arctan_lt_pi_div_two _)]
    simp only [cropRectFormula]
    rw [abs_of_pos hpos, hsin, hcos, Prod.mk.injEq]
    push_cast
    rw [show max (1000 : ℝ) 500 = 1000 from max_eq_left (by norm_num)]
    constructor
    · norm_num
    · norm_num
  · unfold inscribedRect
    rw [hsin, hcos]
    refine ⟨by norm_num, by norm_num, ?_, ?_, ?_, ?_⟩
    · rw [abs_le]
      constructor <;> norm_num
    · rw [abs_le]
      constructor <;> norm_num
    · rw [abs_le]
      constructor <;> norm_num
    · rw [abs_le]
      constructor <;> norm_num

end StitchSchemata
